import Mathlib

/-!
# oncall: queue-consuming worker and service supervisor

A shallow embedding of `pkg/worker` (job, handler registry, the receive loop of
`RabbitWorker.Run`) and of `pkg/server` (`Server.Run`, `Server.Shutdown`).

Conventions of the embedding:

* a Go `error` is a value of `Error`; the `nil` error is `none : Option Error`;
* the broker, `encoding/json` and the Go scheduler are outside the repository: the
  subscription feed is a list of deliveries, `json.Unmarshal` is a parameter
  `unmarshal : String → Option Job` (`none` when it reports an error), and the
  interleaving of the supervisor's tasks is a list of scheduler steps;
* a blocking call that never returns yields `none` where a returned value would be `some _`.
-/

namespace Oncall

/-! ## Errors (`errors`, `fmt.Errorf`, `context.Canceled`) -/

/-- Go error values: the sentinel `context.Canceled`, an error without `Unwrap`, and the
`*fmt.wrapError` built by `fmt.Errorf` with one `%w` verb (its message and the wrapped error). -/
inductive Error where
  | canceled : Error
  | leaf (msg : String) : Error
  | wrap (msg : String) (err : Error) : Error
  deriving DecidableEq, Repr

/-- The `Error()` method. -/
def Error.message : Error → String
  | .canceled => "context canceled"
  | .leaf msg => msg
  | .wrap msg _ => msg

/-- Go `errors.Is(err, target)`: compare, then follow the `Unwrap` chain. -/
def errorsIs : Error → Error → Bool
  | .wrap msg err, target => decide (Error.wrap msg err = target) || errorsIs err target
  | err, target => decide (err = target)

/-- Go `fmt.Errorf(pre + "%w", err)`: the message is `pre` followed by `err.Error()`. -/
def Errorf (pre : String) (err : Error) : Error :=
  .wrap (pre ++ err.message) err

/-! ## pkg/worker: jobs, handlers, deliveries -/

/-- Go `type JobType string`. -/
abbrev JobType := String

/-- Go `type Job struct { Args []string; ID uuid.UUID; Type JobType }`; the identifier is kept
in its textual form, and the field `Type` is spelled `Typ`. -/
structure Job where
  Args : List String
  ID : String
  Typ : JobType
  deriving DecidableEq, Repr

/-- How a call of a handler ends: it returns, or it panics. -/
inductive Outcome where
  | returned
  | panicked
  deriving DecidableEq, Repr

/-- Go `type JobHandler func(ctx context.Context, job *Job)`. A handler has no result; the
embedding keeps how the call ends on each job. -/
structure JobHandler where
  call : Job → Outcome

/-- Go `handlers.Handle`: reads `job.Args[0]`, which panics on an empty argument list. -/
def handlers.Handle : JobHandler where
  call := fun job =>
    match job.Args with
    | [] => .panicked
    | _ :: _ => .returned

/-- The fields of `amqp.Delivery` the worker reads. -/
structure Delivery where
  DeliveryTag : Nat
  RoutingKey : String
  Body : String
  deriving DecidableEq, Repr

/-- What the consumer does to the outside world: `d.Ack(false)` on the delivery with the given
tag, and a handler call made for the delivery with the given tag. -/
inductive Event where
  | ack (tag : Nat) : Event
  | invoke (tag : Nat) (h : JobHandler) (job : Job) : Event

/-- The delivery tag an event belongs to. -/
def Event.tag : Event → Nat
  | .ack tag => tag
  | .invoke tag _ _ => tag

/-- Where control goes after a piece of the consumer goroutine: on to the next iteration,
out of the goroutine by `return`, or out of the process by an unrecovered panic. -/
inductive Flow where
  | next
  | stop
  | crash
  deriving DecidableEq, Repr

/-- The `RabbitWorker` fields the receive loop and `RegisterHandler` use. A Go map has at most
one entry per key; `handlers` lists the entries in the order the `range` visits them, and
`none` is the nil map. -/
structure RabbitWorker where
  handlers : Option (List (JobType × JobHandler))
  queueName : String

/-- The entries a `range` over `w.handlers` visits (none for a nil map). -/
def RabbitWorker.entries (w : RabbitWorker) : List (JobType × JobHandler) :=
  w.handlers.getD []

/-- The inner loop of `Run` (client.go 130-142) for one delivery `d`, over the entries still to
visit: on a key match the body is unmarshalled; a failure returns from the goroutine, otherwise
the delivery is acknowledged and the handler called. -/
def dispatch (unmarshal : String → Option Job) (d : Delivery) :
    List (JobType × JobHandler) → List Event × Flow
  | [] => ([], .next)
  | (t, h) :: rest =>
    if d.RoutingKey = t then
      match unmarshal d.Body with
      | none => ([], .stop)
      | some job =>
        match h.call job with
        | .panicked => ([.ack d.DeliveryTag, .invoke d.DeliveryTag h job], .crash)
        | .returned =>
          let r := dispatch unmarshal d rest
          (.ack d.DeliveryTag :: .invoke d.DeliveryTag h job :: r.1, r.2)
    else dispatch unmarshal d rest

/-- The outer loop of `Run` (client.go 129-143) over the deliveries of the feed; `Flow.next`
at the end means the feed was closed and the goroutine went on to `<-ctx.Done()`. -/
def receiveLoop (unmarshal : String → Option Job) (hs : List (JobType × JobHandler)) :
    List Delivery → List Event × Flow
  | [] => ([], .next)
  | d :: ds =>
    match dispatch unmarshal d hs with
    | (es, .next) =>
      let r := receiveLoop unmarshal hs ds
      (es ++ r.1, r.2)
    | (es, fl) => (es, fl)

/-- The consumer goroutine of `RabbitWorker.Run` on a feed: its events and how it left the
receive loop. -/
def RabbitWorker.Run (w : RabbitWorker) (unmarshal : String → Option Job)
    (feed : List Delivery) : List Event × Flow :=
  receiveLoop unmarshal w.entries feed

/-- The trace of events of `RabbitWorker.Run` on a feed. -/
def RabbitWorker.trace (w : RabbitWorker) (unmarshal : String → Option Job)
    (feed : List Delivery) : List Event :=
  (w.Run unmarshal feed).1

/-- How the consumer goroutine of `RabbitWorker.Run` left the receive loop on a feed. -/
def RabbitWorker.flow (w : RabbitWorker) (unmarshal : String → Option Job)
    (feed : List Delivery) : Flow :=
  (w.Run unmarshal feed).2

/-- The registry respects the Go map invariant: no two entries share a key. -/
def RabbitWorker.WellFormed (w : RabbitWorker) : Prop :=
  (w.entries.map Prod.fst).Nodup

/-! ### Sample data for the scenario of the specification -/

/-- The body of the scenario: field names `Args`, `ID`, `Type`. -/
def sampleBody : String :=
  "\x7b\"Args\":[\"hello\"],\"ID\":\"123e4567-e89b-12d3-a456-426614174000\",\"Type\":\"test\"\x7d"

/-- The job that body stands for. -/
def sampleJob : Job :=
  { Args := ["hello"], ID := "123e4567-e89b-12d3-a456-426614174000", Typ := "test" }

/-- A decoder that knows the sample body and reports an error on every other body. -/
def sampleUnmarshal (body : String) : Option Job :=
  if body = sampleBody then some sampleJob else none

/-- The worker of `cmd/oncall`: `handlers.Handle` registered for `"test"`. -/
def sampleWorker : RabbitWorker :=
  { handlers := some [("test", handlers.Handle)], queueName := "jobs" }

/-! ## pkg/server: the supervisor -/

/-- The state of the task `Run` hands to the run group for one service: not yet at its
`select`, inside the service's `Run`, or returned. -/
inductive TaskState where
  | pending
  | running
  | done
  deriving DecidableEq, Repr

/-- The state of a `sync.Once`: unused, inside its function, or finished. -/
inductive OnceState where
  | fresh
  | running
  | done
  deriving DecidableEq, Repr

/-- The `Server` fields of server.go. `backgroundServices` keeps the type name of each service
(`reflect.TypeOf(svc).String()`); `rootDone` says that `shutdownFn` has cancelled the root
context; `groupDone`, `groupErr` and `task` are the state of `childRoutines` (the run group:
whether it cancelled its context, the first non-nil error a task returned, and the tasks).
`Server.context` is the group's context, derived from the root context. -/
structure Server where
  backgroundServices : List String
  isInitialized : Bool
  rootDone : Bool
  groupDone : Bool
  groupErr : Option Error
  task : Nat → TaskState
  shutdownFinished : Bool
  shutdownOnce : OnceState

/-- Whether `s.context.Done()` is closed: the root context or the group cancelled it. -/
def Server.contextDone (s : Server) : Bool :=
  s.rootDone || s.groupDone

/-- The value of `s.context.Err()`: `context.Canceled` once the context is done (no deadline is
set on it or on its parents), nil before. -/
def Server.contextErr (s : Server) : Option Error :=
  if s.contextDone then some .canceled else none

/-- The server built by `newServer` over services with the given type names. -/
def newServer (names : List String) : Server :=
  { backgroundServices := names
    isInitialized := false
    rootDone := false
    groupDone := false
    groupErr := none
    task := fun _ => .pending
    shutdownFinished := false
    shutdownOnce := .fresh }

/-- The method `Server.Init`: sets the flag once and reports no error. -/
def Server.Init (s : Server) : Server × Option Error :=
  if s.isInitialized then (s, none) else ({ s with isInitialized := true }, none)

/-- The type name of service `i`. -/
def Server.serviceName (s : Server) (i : Nat) : String :=
  s.backgroundServices.getD i ""

/-- What the task of a service returns after `svc.Run` returned `err` (server.go 82-91): the
error wrapped with the service name, unless it is nil or `errors.Is(err, context.Canceled)`. -/
def serviceResult (serviceName : String) (err : Option Error) : Option Error :=
  match err with
  | none => none
  | some e =>
    if errorsIs e .canceled then none else some (Errorf (serviceName ++ " run error: ") e)

/-- The run group when task `i` returns `err`: the task is done, and the first non-nil error is
kept and cancels the group's context. -/
def Server.taskReturns (s : Server) (i : Nat) (err : Option Error) : Server :=
  let s1 := { s with task := Function.update s.task i .done }
  match err with
  | none => s1
  | some e =>
    match s1.groupErr with
    | some _ => s1
    | none => { s1 with groupErr := some e, groupDone := true }

/-- One step of the scheduler while `Run` waits: `cancel` is a call of `shutdownFn` (made by
`Shutdown`), `start i` is task `i` reaching its `select`, `ret i err` is `svc.Run` of service
`i` returning `err`. -/
inductive Step where
  | cancel : Step
  | start (i : Nat) : Step
  | ret (i : Nat) (err : Option Error) : Step
  deriving DecidableEq, Repr

/-- The effect of one scheduler step (server.go 71-91). A task that finds the context done
returns `s.context.Err()` without calling the service; a step that does not fit the state of
its task (no such task, started twice, returning without running) changes nothing. -/
def Server.step (s : Server) : Step → Server
  | .cancel => { s with rootDone := true }
  | .start i =>
    if i < s.backgroundServices.length ∧ s.task i = .pending then
      if s.contextDone then s.taskReturns i s.contextErr
      else { s with task := Function.update s.task i .running }
    else s
  | .ret i err =>
    if s.task i = .running then s.taskReturns i (serviceResult (s.serviceName i) err) else s

/-- The effect of a list of scheduler steps. -/
def Server.exec (s : Server) (sched : List Step) : Server :=
  sched.foldl Server.step s

/-- Whether every task of the run group has returned (what `childRoutines.Wait` waits for). -/
def Server.allDone (s : Server) : Bool :=
  (List.range s.backgroundServices.length).all fun i => decide (s.task i = .done)

/-- The loop of `Run` handing one task per service to the run group. -/
def Server.spawn (s : Server) : Server :=
  { s with task := fun _ => .pending }

/-- The method `Server.Run` under a schedule: the final state and the returned error, or
`none` for the result when some task has not returned and `Wait` still blocks. On return the
group cancels its context and the deferred `close(s.shutdownFinished)` runs. -/
def Server.Run (s : Server) (sched : List Step) : Server × Option (Option Error) :=
  match s.Init with
  | (s1, some err) => ({ s1 with shutdownFinished := true }, some (some err))
  | (s1, none) =>
    let s2 := s1.spawn.exec sched
    if s2.allDone then
      ({ s2 with groupDone := true, shutdownFinished := true }, some s2.groupErr)
    else (s2, none)

/-- What the `select` of `Shutdown` meets when it stops waiting: whether `shutdownFinished` got
closed meanwhile (`Run` returned), whether `ctx.Done()` is closed (the deadline elapsed), and
which case the runtime takes when both are ready (`true`: the first). -/
structure SelectView where
  finished : Bool
  ctxDone : Bool
  first : Bool
  deriving DecidableEq, Repr

/-- The error built by `fmt.Errorf("timeout waiting for shutdown")`. -/
def shutdownTimeout : Error :=
  .leaf "timeout waiting for shutdown"

/-- The method `Server.Shutdown(ctx, reason)`: the final state and the returned error, or `none`
for the result when the call blocks for ever. `err` is a local variable, set only inside the
function given to `shutdownOnce.Do`; a call that finds the once finished skips the function,
and a call that finds it in progress waits for it. -/
def Server.Shutdown (s : Server) (v : SelectView) : Server × Option (Option Error) :=
  match s.shutdownOnce with
  | .done => (s, some none)
  | .running => (s, none)
  | .fresh =>
    let s1 := { s with rootDone := true }
    let fin := s.shutdownFinished || v.finished
    if fin && (!v.ctxDone || v.first) then
      ({ s1 with shutdownOnce := .done }, some none)
    else if v.ctxDone then
      ({ s1 with shutdownOnce := .done }, some (some shutdownTimeout))
    else ({ s1 with shutdownOnce := .running }, none)

/-- A sequence of calls of `Shutdown`, one per view: the final state and the results in order. -/
def Server.shutdownCalls (s : Server) : List SelectView → Server × List (Option (Option Error))
  | [] => (s, [])
  | v :: vs =>
    let r := s.Shutdown v
    let rs := Server.shutdownCalls r.1 vs
    (rs.1, r.2 :: rs.2)

/-- Whether a scheduler step is the start of a task. -/
def Step.isStart : Step → Bool
  | .start _ => true
  | _ => false

/-- No task starts after a `cancel` step: every task reaches its `select` before `Shutdown`
cancels the root context. -/
def startsBeforeCancel : List Step → Bool
  | [] => true
  | .cancel :: rest => rest.all fun st => !st.isStart
  | _ :: rest => startsBeforeCancel rest

/-- The state of the server while `Run` waits in `Wait`, after the steps of `sched`. -/
def Server.during (s : Server) (sched : List Step) : Server :=
  s.Init.1.spawn.exec sched

/-- The error `e` is what the task of some service returns for a non-cancellation error that
the service's `Run` returned in a step of `sched`. -/
def Wrapped (names : List String) (sched : List Step) (e : Error) : Prop :=
  ∃ i r, Step.ret i (some r) ∈ sched ∧ errorsIs r .canceled = false ∧
    e = Errorf (names.getD i "" ++ " run error: ") r

/-- The group's error, when set, is the wrapped non-cancellation error of a service that
returned in `sched`, and the services are those named. -/
def Server.Sound (names : List String) (sched : List Step) (s : Server) : Prop :=
  s.backgroundServices = names ∧ ∀ e, s.groupErr = some e → Wrapped names sched e

/-- The names of the two services of `newServer`. -/
def sampleServices : List String :=
  ["*api.HTTPServer", "*worker.RabbitWorker"]

/-! ## pkg/worker: construction, registration and the return of `Run` -/

/-- What the broker answers to each setup call of `NewRabbitWorker`, in the order of the calls:
the error (nil when the call succeeds) of `amqp.Dial`, `c.Channel`, `ch.Qos`, `ch.QueueDeclare`,
`ch.ExchangeDeclare` and `ch.QueueBind`. -/
structure Broker where
  dial : Option Error
  channel : Option Error
  qos : Option Error
  queueDeclare : Option Error
  exchangeDeclare : Option Error
  queueBind : Option Error
  deriving DecidableEq, Repr

/-- The function `NewRabbitWorker` (client.go 24-99): the worker and the error it returns. The
errors of `amqp.Dial`, `c.Channel`, `ch.QueueDeclare` and `ch.ExchangeDeclare` are checked and
wrapped; the results of `ch.Qos` and `ch.QueueBind` are dropped. The worker is returned without
a handler map. -/
def NewRabbitWorker (b : Broker) (host username password vhost : String) (port : Int)
    (queueName exchangeName : String) (_pollInterval : Nat) :
    Option RabbitWorker × Option Error :=
  let url := "amqp://" ++ username ++ ":" ++ password ++ "@" ++ host ++ ":" ++ toString port ++
    vhost
  match b.dial with
  | some err => (none, some (.wrap ("Cannot dial " ++ url ++ ", " ++ err.message ++ "\n") err))
  | none =>
    match b.channel with
    | some err => (none, some (.wrap ("Cannot open channel. " ++ err.message ++ "\n") err))
    | none =>
      match b.queueDeclare with
      | some err =>
        (none, some (.wrap ("Failed to declare queue " ++ queueName ++ ", " ++ err.message ++
          "\n") err))
      | none =>
        match b.exchangeDeclare with
        | some err =>
          (none, some (.wrap ("Failed to declare exchange " ++ exchangeName ++ ", " ++
            err.message ++ "\n") err))
        | none => (some { handlers := none, queueName := queueName }, none)

/-- The entries of a Go map after `m[t] = h` on a map that is not nil: the entry of `t` is
replaced when there is one, and added otherwise. -/
def entriesSet (t : JobType) (h : JobHandler) :
    List (JobType × JobHandler) → List (JobType × JobHandler)
  | [] => [(t, h)]
  | (t1, h1) :: rest => if t1 = t then (t, h) :: rest else (t1, h1) :: entriesSet t h rest

/-- The Go statement `m[t] = h`: a panic on the nil map, the updated entries otherwise. -/
def mapAssign (m : Option (List (JobType × JobHandler))) (t : JobType) (h : JobHandler) :
    Except String (List (JobType × JobHandler)) :=
  match m with
  | none => .error "assignment to entry in nil map"
  | some es => .ok (entriesSet t h es)

/-- The method `RabbitWorker.RegisterHandler(t, h, args)` (client.go 101-107): the worker
afterwards, or the panic message. A nil map is made first; `args` is not used. -/
def RabbitWorker.RegisterHandler {α : Type} (w : RabbitWorker) (t : JobType) (h : JobHandler)
    (_args : α) : Except String RabbitWorker :=
  let w1 : RabbitWorker :=
    match w.handlers with
    | none => { w with handlers := some [] }
    | some _ => w
  match mapAssign w1.handlers t h with
  | .ok es => .ok { w1 with handlers := some es }
  | .error msg => .error msg

/-- The value of `m[t]` on a list of entries, when there is one. -/
def entriesGet (t : JobType) : List (JobType × JobHandler) → Option JobHandler
  | [] => none
  | (t1, h1) :: rest => if t1 = t then some h1 else entriesGet t rest

/-- The handler `w.handlers[t]`, when the registry has one. -/
def RabbitWorker.handlerFor (w : RabbitWorker) (t : JobType) : Option JobHandler :=
  entriesGet t w.entries

/-- The handlers called in a trace, in order. -/
def calledHandlers : List Event → List JobHandler
  | [] => []
  | .ack _ :: rest => calledHandlers rest
  | .invoke _ h _ :: rest => h :: calledHandlers rest

/-- A Go channel as a receive sees it: nil, open with nothing to receive, or closed. -/
inductive Chan where
  | nil
  | empty
  | closed
  deriving DecidableEq, Repr

/-- Whether a receive from the channel proceeds: only a closed channel lets it through (a nil
channel and an open channel nobody sends on block). -/
def Chan.recv : Chan → Bool
  | .closed => true
  | _ => false

/-- The local variable `forever` of `Run` (client.go 111): declared with `var`, so nil, and
never assigned, sent on or closed. -/
def forever : Chan := .nil

/-- Whether the consumer goroutine of `Run` reaches its end (client.go 113-147), given how it
left the receive loop and whether `ctx` is cancelled: after a closed feed it waits for
`ctx.Done()`; after a deserialization error it has returned; after a panic the process is gone. -/
def consumerEnds (fl : Flow) (ctxDone : Bool) : Bool :=
  match fl with
  | .next => ctxDone
  | .stop => true
  | .crash => false

/-- The value `RabbitWorker.Run(ctx)` returns (client.go 109-154), or `none` when the call never
returns: after starting the consumer goroutine, `Run` receives from `forever` and then returns
nil. Neither the goroutine nor the context takes part in that receive; a panic of a handler ends
the process, and with it the call. -/
def RabbitWorker.RunReturn (w : RabbitWorker) (unmarshal : String → Option Job)
    (feed : List Delivery) (ctxDone : Bool) : Option (Option Error) :=
  match w.flow unmarshal feed, ctxDone with
  | .crash, _ => none
  | _, _ => if forever.recv then some none else none

/-- The body with an empty argument list. -/
def emptyArgsBody : String := "\x7b\"Args\":[]\x7d"

/-- The job that body stands for: no argument, the zero identifier, the empty type. -/
def emptyArgsJob : Job :=
  { Args := [], ID := "00000000-0000-0000-0000-000000000000", Typ := "" }

/-- The sample body with another value in its field `Type`. -/
def otherTypeBody : String :=
  "\x7b\"Args\":[\"hello\"],\"ID\":\"123e4567-e89b-12d3-a456-426614174000\",\"Type\":\"other\"\x7d"

/-- The job that body stands for: the sample job but for its type. -/
def otherTypeJob : Job :=
  { Args := ["hello"], ID := "123e4567-e89b-12d3-a456-426614174000", Typ := "other" }

/-- A decoder that knows the sample body, the body with an empty argument list and the body
with another type, and reports an error on every other body. -/
def scenarioUnmarshal (body : String) : Option Job :=
  if body = sampleBody then some sampleJob
  else if body = emptyArgsBody then some emptyArgsJob
  else if body = otherTypeBody then some otherTypeJob
  else none

/-- A worker as `NewRabbitWorker` returns it: no handler map yet. -/
def freshWorker : RabbitWorker :=
  { handlers := none, queueName := "jobs" }

/-- A broker on which every setup call succeeds but the binding of the queue. -/
def bindFailingBroker : Broker :=
  { dial := none, channel := none, qos := none, queueDeclare := none, exchangeDeclare := none,
    queueBind := some (.leaf "ACCESS_REFUSED") }

/-! ## Properties of the receive loop -/

/-- A delivery whose routing key equals no key of the entries passes the inner loop without an
event. -/
theorem dispatch_unmatched (unmarshal : String → Option Job) (d : Delivery) :
    ∀ hs : List (JobType × JobHandler), (∀ p ∈ hs, p.1 ≠ d.RoutingKey) →
      dispatch unmarshal d hs = ([], .next)
  | [], _ => rfl
  | (t, h) :: rest, hne => by
    have h1 : ¬ d.RoutingKey = t := fun e => hne (t, h) (List.mem_cons_self _ _) e.symm
    have h2 := dispatch_unmatched unmarshal d rest
      (fun p hp => hne p (List.mem_cons_of_mem _ hp))
    simp [dispatch, h1, h2]

/-- With unique keys, a delivery whose routing key is registered and whose body decodes gets
exactly one acknowledgment followed by exactly one call, of the handler under that key. -/
theorem dispatch_matched (unmarshal : String → Option Job) (d : Delivery) (t : JobType)
    (h : JobHandler) (job : Job) (hk : d.RoutingKey = t) (hj : unmarshal d.Body = some job) :
    ∀ hs : List (JobType × JobHandler), (hs.map Prod.fst).Nodup → (t, h) ∈ hs →
      dispatch unmarshal d hs =
        ([.ack d.DeliveryTag, .invoke d.DeliveryTag h job],
          match h.call job with
          | .returned => .next
          | .panicked => .crash)
  | [], _, hm => by simp at hm
  | (t1, h1) :: rest, hnd, hm => by
    rw [List.map_cons, List.nodup_cons] at hnd
    by_cases hkey : d.RoutingKey = t1
    · have ht : t1 = t := hkey.symm.trans hk
      have hhead : (t, h) = (t1, h1) := by
        rcases List.mem_cons.mp hm with e | e
        · exact e
        · exact absurd (List.mem_map_of_mem Prod.fst e) (by simpa [ht] using hnd.1)
      have hh : h1 = h := (Prod.mk.inj hhead).2.symm
      subst hh
      have hrest : dispatch unmarshal d rest = ([], .next) := by
        apply dispatch_unmatched
        intro p hp e
        have hp1 : p.1 ∈ rest.map Prod.fst := List.mem_map_of_mem Prod.fst hp
        rw [e, hkey] at hp1
        exact hnd.1 hp1
      cases hc : h1.call job <;> simp [dispatch, hkey, hj, hc, hrest]
    · have hm2 : (t, h) ∈ rest := by
        rcases List.mem_cons.mp hm with e | e
        · exact absurd (hk.trans (Prod.mk.inj e).1) hkey
        · exact e
      have ih := dispatch_matched unmarshal d t h job hk hj rest hnd.2 hm2
      simp [dispatch, hkey, ih]

/-- A delivery whose body does not decode passes the inner loop without an event. -/
theorem dispatch_malformed_events (unmarshal : String → Option Job) (d : Delivery)
    (hj : unmarshal d.Body = none) :
    ∀ hs : List (JobType × JobHandler), (dispatch unmarshal d hs).1 = []
  | [] => rfl
  | (t, h) :: rest => by
    by_cases hkey : d.RoutingKey = t
    · simp [dispatch, hkey, hj]
    · simpa [dispatch, hkey] using dispatch_malformed_events unmarshal d hj rest

/-- A delivery whose body does not decode and whose routing key is registered makes the
goroutine return. -/
theorem dispatch_malformed_stop (unmarshal : String → Option Job) (d : Delivery)
    (hj : unmarshal d.Body = none) :
    ∀ hs : List (JobType × JobHandler), (∃ p ∈ hs, p.1 = d.RoutingKey) →
      dispatch unmarshal d hs = ([], .stop)
  | [], hex => by simp at hex
  | (t, h) :: rest, hex => by
    by_cases hkey : d.RoutingKey = t
    · simp [dispatch, hkey, hj]
    · have hex2 : ∃ p ∈ rest, p.1 = d.RoutingKey := by
        obtain ⟨p, hp, e⟩ := hex
        rcases List.mem_cons.mp hp with e1 | e1
        · exact absurd (by rw [← e, e1]) hkey
        · exact ⟨p, e1, e⟩
      simpa [dispatch, hkey] using dispatch_malformed_stop unmarshal d hj rest hex2

/-- The receive loop on a feed made of two parts: the second part is processed after the
first when the first leaves the loop running, and not at all otherwise. -/
theorem receiveLoop_append (unmarshal : String → Option Job) (hs : List (JobType × JobHandler))
    (post : List Delivery) :
    ∀ pre : List Delivery, receiveLoop unmarshal hs (pre ++ post) =
      if (receiveLoop unmarshal hs pre).2 = .next then
        ((receiveLoop unmarshal hs pre).1 ++ (receiveLoop unmarshal hs post).1,
          (receiveLoop unmarshal hs post).2)
      else receiveLoop unmarshal hs pre
  | [] => by simp [receiveLoop]
  | d :: ds => by
    have ih := receiveLoop_append unmarshal hs post ds
    rcases hd : dispatch unmarshal d hs with ⟨es, fl⟩
    cases fl
    · by_cases hn : (receiveLoop unmarshal hs ds).2 = .next
      · simp [receiveLoop, hd, ih, hn]
      · simp [receiveLoop, hd, ih, hn]
    · simp [receiveLoop, hd]
    · simp [receiveLoop, hd]

/-- With unique keys the inner loop leaves, for one delivery, either no event or one
acknowledgment followed by one handler call, both carrying the tag of the delivery. -/
theorem dispatch_shape (unmarshal : String → Option Job) (d : Delivery)
    (hs : List (JobType × JobHandler)) (hnd : (hs.map Prod.fst).Nodup) :
    (dispatch unmarshal d hs).1 = [] ∨
      ∃ h job, (dispatch unmarshal d hs).1 = [.ack d.DeliveryTag, .invoke d.DeliveryTag h job] := by
  by_cases hex : ∃ p ∈ hs, p.1 = d.RoutingKey
  · obtain ⟨p, hp, e⟩ := hex
    cases hj : unmarshal d.Body with
    | none => exact Or.inl (dispatch_malformed_events unmarshal d hj hs)
    | some job =>
      refine Or.inr ⟨p.2, job, ?_⟩
      rw [dispatch_matched unmarshal d p.1 p.2 job e.symm hj hs hnd hp]
  · left
    rw [dispatch_unmatched unmarshal d hs]
    intro p hp e
    exact hex ⟨p, hp, e⟩

/-- Every event of the receive loop carries the tag of a delivery of the feed. -/
theorem receiveLoop_tags (unmarshal : String → Option Job) (hs : List (JobType × JobHandler))
    (hnd : (hs.map Prod.fst).Nodup) :
    ∀ ds : List Delivery, ∀ e ∈ (receiveLoop unmarshal hs ds).1,
      e.tag ∈ ds.map Delivery.DeliveryTag
  | [], e, he => by simp [receiveLoop] at he
  | d :: ds, e, he => by
    have ih := receiveLoop_tags unmarshal hs hnd ds
    have hsh := dispatch_shape unmarshal d hs hnd
    rcases hd : dispatch unmarshal d hs with ⟨es, fl⟩
    rw [hd] at hsh
    have hes : ∀ x ∈ es, x.tag = d.DeliveryTag := by
      rcases hsh with h0 | ⟨h, job, h0⟩
      · simp only at h0
        subst h0
        intro x hx
        simp at hx
      · simp only at h0
        subst h0
        intro x hx
        simp only [List.mem_cons, List.mem_singleton, List.not_mem_nil, or_false] at hx
        rcases hx with hx | hx <;> subst hx <;> rfl
    have hmem : e ∈ es ∨ e ∈ (receiveLoop unmarshal hs ds).1 := by
      cases fl
      · simpa [receiveLoop, hd] using he
      · left
        simpa [receiveLoop, hd] using he
      · left
        simpa [receiveLoop, hd] using he
    rcases hmem with hm | hm
    · simp [hes e hm]
    · exact List.mem_cons_of_mem _ (ih e hm)

/-- Putting an acknowledgment and a call with a fresh tag in front of a trace keeps the order
property: each call has the acknowledgment of its tag before it and none after it. -/
theorem ack_invoke_cons (t0 : Nat) (h0 : JobHandler) (j0 : Job) (R : List Event)
    (hR : ∀ e ∈ R, e.tag ≠ t0)
    (hP : ∀ pre post tag h job, R = pre ++ Event.invoke tag h job :: post →
      Event.ack tag ∈ pre ∧ Event.ack tag ∉ post) :
    ∀ pre post tag h job,
      Event.ack t0 :: Event.invoke t0 h0 j0 :: R = pre ++ Event.invoke tag h job :: post →
        Event.ack tag ∈ pre ∧ Event.ack tag ∉ post := by
  intro pre post tag h job heq
  cases pre with
  | nil => simp at heq
  | cons e1 pre1 =>
    cases pre1 with
    | nil =>
      simp only [List.cons_append, List.nil_append, List.cons.injEq, Event.invoke.injEq] at heq
      obtain ⟨he1, ⟨htag, _, _⟩, hpost⟩ := heq
      subst he1
      subst htag
      subst hpost
      refine ⟨List.mem_singleton.mpr rfl, ?_⟩
      intro hmem
      exact hR _ hmem rfl
    | cons e2 pre2 =>
      simp only [List.cons_append, List.cons.injEq] at heq
      obtain ⟨_, _, hrest⟩ := heq
      obtain ⟨hin, hout⟩ := hP pre2 post tag h job hrest
      exact ⟨List.mem_cons_of_mem _ (List.mem_cons_of_mem _ hin), hout⟩

/-- The order property of the receive loop: with unique keys and distinct delivery tags, each
handler call in the trace has the acknowledgment of its tag before it and none after it. -/
theorem receiveLoop_ack_first (unmarshal : String → Option Job)
    (hs : List (JobType × JobHandler)) (hnd : (hs.map Prod.fst).Nodup) :
    ∀ ds : List Delivery, (ds.map Delivery.DeliveryTag).Nodup →
      ∀ pre post tag h job,
        (receiveLoop unmarshal hs ds).1 = pre ++ Event.invoke tag h job :: post →
          Event.ack tag ∈ pre ∧ Event.ack tag ∉ post
  | [], _, pre, post, tag, h, job, heq => by simp [receiveLoop] at heq
  | d :: ds, htags, pre, post, tag, h, job, heq => by
    rw [List.map_cons, List.nodup_cons] at htags
    have ih := receiveLoop_ack_first unmarshal hs hnd ds htags.2
    have hfresh : ∀ e ∈ (receiveLoop unmarshal hs ds).1, e.tag ≠ d.DeliveryTag := by
      intro e he hc
      exact htags.1 (hc ▸ receiveLoop_tags unmarshal hs hnd ds e he)
    have hsh := dispatch_shape unmarshal d hs hnd
    rcases hd : dispatch unmarshal d hs with ⟨es, fl⟩
    rw [hd] at hsh
    rcases hsh with h0 | ⟨h1, j1, h0⟩
    · simp only at h0
      subst h0
      cases fl
      · exact ih pre post tag h job (by simpa [receiveLoop, hd] using heq)
      · simp [receiveLoop, hd] at heq
      · simp [receiveLoop, hd] at heq
    · simp only at h0
      subst h0
      cases fl
      · exact ack_invoke_cons d.DeliveryTag h1 j1 _ hfresh ih pre post tag h job
          (by simpa [receiveLoop, hd] using heq)
      · exact ack_invoke_cons d.DeliveryTag h1 j1 [] (by simp) (by simp) pre post tag h job
          (by simpa [receiveLoop, hd] using heq)
      · exact ack_invoke_cons d.DeliveryTag h1 j1 [] (by simp) (by simp) pre post tag h job
          (by simpa [receiveLoop, hd] using heq)

/-- The trace and the flow of `RabbitWorker.Run` on a feed made of two parts. -/
theorem run_append (w : RabbitWorker) (unmarshal : String → Option Job)
    (pre post : List Delivery) :
    w.Run unmarshal (pre ++ post) =
      if w.flow unmarshal pre = .next then
        (w.trace unmarshal pre ++ w.trace unmarshal post, w.flow unmarshal post)
      else w.Run unmarshal pre :=
  receiveLoop_append unmarshal w.entries post pre

/-- The run of `RabbitWorker.Run` on a feed with a first delivery: the inner loop on that
delivery, followed by the run on the rest of the feed when the loop goes on. -/
theorem run_cons (w : RabbitWorker) (unmarshal : String → Option Job) (d : Delivery)
    (ds : List Delivery) :
    w.Run unmarshal (d :: ds) =
      if (dispatch unmarshal d w.entries).2 = .next then
        ((dispatch unmarshal d w.entries).1 ++ w.trace unmarshal ds, w.flow unmarshal ds)
      else dispatch unmarshal d w.entries := by
  rcases hd : dispatch unmarshal d w.entries with ⟨es, fl⟩
  cases fl <;>
    simp [RabbitWorker.Run, RabbitWorker.trace, RabbitWorker.flow, receiveLoop, hd]

/-! ### C1 -/

/-- C1 (handler dispatch). For every registry with unique keys and every delivery `d` the
receive loop reaches, if the routing key of `d` is a registered type `t` with handler `h` and
the body of `d` deserializes to the job `job`, then what the loop does for `d` is exactly one
acknowledgment followed by exactly one call, of `h` with `job`: the trace on `pre ++ d :: post`
is the trace on `pre`, then these two events, then the trace on `post` (nothing more when `h`
panics). No other handler is called for `d`. -/
theorem C1_handler_dispatch (w : RabbitWorker) (unmarshal : String → Option Job)
    (pre post : List Delivery) (d : Delivery) (t : JobType) (h : JobHandler) (job : Job)
    (hwf : w.WellFormed) (hreg : (t, h) ∈ w.entries) (hk : d.RoutingKey = t)
    (hj : unmarshal d.Body = some job) (hpre : w.flow unmarshal pre = .next) :
    w.trace unmarshal (pre ++ d :: post) =
      w.trace unmarshal pre ++ Event.ack d.DeliveryTag :: Event.invoke d.DeliveryTag h job ::
        (match h.call job with
          | .returned => w.trace unmarshal post
          | .panicked => []) := by
  have hd := dispatch_matched unmarshal d t h job hk hj w.entries hwf hreg
  have h1 : w.trace unmarshal (pre ++ d :: post) =
      w.trace unmarshal pre ++ w.trace unmarshal (d :: post) := by
    show (w.Run unmarshal (pre ++ d :: post)).1 = _
    rw [run_append, if_pos hpre]
  have h2 : w.trace unmarshal (d :: post) = (w.Run unmarshal (d :: post)).1 := rfl
  rw [h1, h2, run_cons, hd]
  cases hc : h.call job <;> simp

/-- C1 witness: `handlers.Handle` registered for `"test"`, routing key `"test"`, the body of the
scenario: one acknowledgment and one call, with `Args[0] = "hello"`. -/
theorem C1_handler_dispatch_witness :
    sampleWorker.WellFormed ∧ sampleUnmarshal sampleBody = some sampleJob ∧
      sampleWorker.trace sampleUnmarshal ([] ++ ⟨1, "test", sampleBody⟩ :: []) =
        [Event.ack 1, Event.invoke 1 handlers.Handle sampleJob] ∧
      sampleJob.Args.head? = some "hello" :=
  ⟨by simp [RabbitWorker.WellFormed, RabbitWorker.entries, sampleWorker],
    by simp [sampleUnmarshal],
    C1_handler_dispatch sampleWorker sampleUnmarshal [] [] ⟨1, "test", sampleBody⟩ "test"
      handlers.Handle sampleJob
      (by simp [RabbitWorker.WellFormed, RabbitWorker.entries, sampleWorker])
      (by simp [RabbitWorker.entries, sampleWorker]) rfl (by simp [sampleUnmarshal]) rfl,
    rfl⟩

/-! ### C2 -/

/-- C2 as stated fails: with `handlers.Handle` registered for `"test"`, a delivery with
routing key `"other"` matches no registered type, and the receive loop leaves no event for it:
in particular no acknowledgment (`d.Ack` is only called under the key match). -/
theorem C2_unmatched_not_acknowledged :
    (∀ p ∈ sampleWorker.entries, p.1 ≠ "other") ∧
      sampleWorker.trace sampleUnmarshal [⟨7, "other", sampleBody⟩] = [] ∧
      Event.ack 7 ∉ sampleWorker.trace sampleUnmarshal [⟨7, "other", sampleBody⟩] := by
  refine ⟨by simp [RabbitWorker.entries, sampleWorker], rfl, ?_⟩
  have h : sampleWorker.trace sampleUnmarshal [⟨7, "other", sampleBody⟩] = [] := rfl
  simp [h]

/-- C2 amended (unmatched routing key). For every registry and every delivery `d` whose routing
key equals no registered type, the receive loop does nothing for `d`: no handler call and no
acknowledgment (the body is not even deserialized), and it goes on with the next delivery, so
that the run on a feed containing `d` is the run on the feed without it. -/
theorem C2_unmatched_skipped (w : RabbitWorker) (unmarshal : String → Option Job)
    (pre post : List Delivery) (d : Delivery) (hno : ∀ p ∈ w.entries, p.1 ≠ d.RoutingKey) :
    dispatch unmarshal d w.entries = ([], .next) ∧
      w.Run unmarshal (pre ++ d :: post) = w.Run unmarshal (pre ++ post) := by
  have hd := dispatch_unmatched unmarshal d w.entries hno
  have hrun : w.Run unmarshal (d :: post) = w.Run unmarshal post := by
    rw [run_cons, hd]
    simp [RabbitWorker.trace, RabbitWorker.flow]
  refine ⟨hd, ?_⟩
  rw [run_append, run_append w unmarshal pre post]
  simp [RabbitWorker.trace, RabbitWorker.flow, hrun]

/-- C2 witness: the worker of the scenario and a delivery with routing key `"other"`. -/
theorem C2_unmatched_skipped_witness :
    (∀ p ∈ sampleWorker.entries, p.1 ≠ (⟨7, "other", sampleBody⟩ : Delivery).RoutingKey) ∧
      dispatch sampleUnmarshal ⟨7, "other", sampleBody⟩ sampleWorker.entries = ([], .next) ∧
      sampleWorker.Run sampleUnmarshal ([] ++ ⟨7, "other", sampleBody⟩ :: [⟨8, "test", sampleBody⟩])
        = sampleWorker.Run sampleUnmarshal ([] ++ [⟨8, "test", sampleBody⟩]) :=
  ⟨by simp [RabbitWorker.entries, sampleWorker],
    C2_unmatched_skipped sampleWorker sampleUnmarshal [] [⟨8, "test", sampleBody⟩]
      ⟨7, "other", sampleBody⟩ (by simp [RabbitWorker.entries, sampleWorker])⟩

/-! ### C3 -/

/-- C3 as stated fails: with `handlers.Handle` registered for `"test"`, a delivery with routing
key `"test"` whose body does not deserialize gets no acknowledgment: the goroutine returns
before `d.Ack`. -/
theorem C3_malformed_not_acknowledged :
    sampleUnmarshal "oops" = none ∧
      sampleWorker.trace sampleUnmarshal [⟨7, "test", "oops"⟩] = [] ∧
      Event.ack 7 ∉ sampleWorker.trace sampleUnmarshal [⟨7, "test", "oops"⟩] := by
  have h : sampleWorker.trace sampleUnmarshal [⟨7, "test", "oops"⟩] = [] := by
    simp [RabbitWorker.trace, RabbitWorker.Run, RabbitWorker.entries, sampleWorker, receiveLoop,
      dispatch, sampleUnmarshal, sampleBody]
  refine ⟨by simp [sampleUnmarshal, sampleBody], h, ?_⟩
  simp [h]

/-- C3 amended (malformed payload). For every registry and every delivery `d` whose body fails
to deserialize, whatever its routing key, the receive loop performs no handler call for `d`
and does not acknowledge it: `d` adds nothing to the trace. -/
theorem C3_malformed_no_event (w : RabbitWorker) (unmarshal : String → Option Job)
    (pre : List Delivery) (d : Delivery) (hj : unmarshal d.Body = none) :
    (dispatch unmarshal d w.entries).1 = [] ∧
      w.trace unmarshal (pre ++ [d]) = w.trace unmarshal pre := by
  have hd := dispatch_malformed_events unmarshal d hj w.entries
  refine ⟨hd, ?_⟩
  have hone : w.trace unmarshal [d] = [] := by
    show (w.Run unmarshal [d]).1 = []
    rw [run_cons]
    split <;> simp [hd, RabbitWorker.trace, RabbitWorker.Run, receiveLoop]
  show (w.Run unmarshal (pre ++ [d])).1 = _
  rw [run_append]
  split
  · simp [hone]
  · rfl

/-- C3 witness: the worker of the scenario and a delivery with a body that does not decode. -/
theorem C3_malformed_no_event_witness :
    sampleUnmarshal (⟨7, "test", "oops"⟩ : Delivery).Body = none ∧
      (dispatch sampleUnmarshal ⟨7, "test", "oops"⟩ sampleWorker.entries).1 = [] ∧
      sampleWorker.trace sampleUnmarshal ([] ++ [⟨7, "test", "oops"⟩]) =
        sampleWorker.trace sampleUnmarshal [] :=
  ⟨by simp [sampleUnmarshal, sampleBody],
    C3_malformed_no_event sampleWorker sampleUnmarshal [] ⟨7, "test", "oops"⟩
      (by simp [sampleUnmarshal, sampleBody])⟩

/-! ### C4 -/

/-- C4 as stated fails: with `handlers.Handle` registered for `"test"`, a delivery with routing
key `"test"` and a body that does not deserialize makes the goroutine return, so the well-formed
delivery after it is neither acknowledged nor handled, while the same delivery alone is. -/
theorem C4_malformed_stops_consumer :
    sampleUnmarshal "oops" = none ∧
      sampleWorker.Run sampleUnmarshal [⟨7, "test", "oops"⟩, ⟨8, "test", sampleBody⟩] =
        ([], .stop) ∧
      sampleWorker.Run sampleUnmarshal [⟨8, "test", sampleBody⟩] =
        ([Event.ack 8, Event.invoke 8 handlers.Handle sampleJob], .next) := by
  refine ⟨by simp [sampleUnmarshal, sampleBody], ?_, rfl⟩
  simp [RabbitWorker.Run, RabbitWorker.entries, sampleWorker, receiveLoop, dispatch,
    sampleUnmarshal, sampleBody]

/-- C4 amended (malformed payload and the rest of the feed). For every registry and every feed
with a delivery `d` whose body fails to deserialize: if the routing key of `d` equals no
registered type, the body is never deserialized and every later delivery is processed exactly
as if `d` were absent; if the routing key of `d` equals a registered type, the consumer
goroutine returns at `d`: the trace ends with what was done before `d`, no later delivery is
acknowledged or handled, and the loop is not running afterwards. -/
theorem C4_malformed_rest_of_feed (w : RabbitWorker) (unmarshal : String → Option Job)
    (pre post : List Delivery) (d : Delivery) (hj : unmarshal d.Body = none) :
    ((∀ p ∈ w.entries, p.1 ≠ d.RoutingKey) →
        w.Run unmarshal (pre ++ d :: post) = w.Run unmarshal (pre ++ post)) ∧
      ((∃ p ∈ w.entries, p.1 = d.RoutingKey) →
        w.trace unmarshal (pre ++ d :: post) = w.trace unmarshal pre ∧
          w.flow unmarshal (pre ++ d :: post) ≠ .next) := by
  constructor
  · intro hno
    have hd := dispatch_unmatched unmarshal d w.entries hno
    have hrun : w.Run unmarshal (d :: post) = w.Run unmarshal post := by
      rw [run_cons, hd]
      simp [RabbitWorker.trace, RabbitWorker.flow]
    rw [run_append, run_append w unmarshal pre post]
    simp [RabbitWorker.trace, RabbitWorker.flow, hrun]
  · intro hex
    have hd := dispatch_malformed_stop unmarshal d hj w.entries hex
    have hrun : w.Run unmarshal (d :: post) = ([], .stop) := by
      rw [run_cons, hd]
      simp
    have happ := run_append w unmarshal pre (d :: post)
    by_cases hpre : w.flow unmarshal pre = .next
    · rw [if_pos hpre] at happ
      constructor
      · show (w.Run unmarshal (pre ++ d :: post)).1 = _
        rw [happ]
        simp [RabbitWorker.trace, hrun]
      · show (w.Run unmarshal (pre ++ d :: post)).2 ≠ _
        rw [happ]
        simp [RabbitWorker.flow, hrun]
    · rw [if_neg hpre] at happ
      constructor
      · show (w.Run unmarshal (pre ++ d :: post)).1 = _
        rw [happ]
        rfl
      · show (w.Run unmarshal (pre ++ d :: post)).2 ≠ _
        rw [happ]
        exact hpre

/-- C4 witness: the worker of the scenario, a malformed delivery and a well-formed one. -/
theorem C4_malformed_rest_of_feed_witness :
    sampleUnmarshal (⟨7, "test", "oops"⟩ : Delivery).Body = none ∧
      (∃ p ∈ sampleWorker.entries, p.1 = (⟨7, "test", "oops"⟩ : Delivery).RoutingKey) ∧
      sampleWorker.trace sampleUnmarshal ([] ++ ⟨7, "test", "oops"⟩ :: [⟨8, "test", sampleBody⟩])
        = sampleWorker.trace sampleUnmarshal [] ∧
      sampleWorker.flow sampleUnmarshal ([] ++ ⟨7, "test", "oops"⟩ :: [⟨8, "test", sampleBody⟩])
        ≠ .next :=
  ⟨by simp [sampleUnmarshal, sampleBody],
    ⟨("test", handlers.Handle), by simp [RabbitWorker.entries, sampleWorker], rfl⟩,
    (C4_malformed_rest_of_feed sampleWorker sampleUnmarshal [] [⟨8, "test", sampleBody⟩]
      ⟨7, "test", "oops"⟩ (by simp [sampleUnmarshal, sampleBody])).2
      ⟨("test", handlers.Handle), by simp [RabbitWorker.entries, sampleWorker], rfl⟩⟩

/-! ### C5 -/

/-- C5 (acknowledge before handle). For every registry with unique keys and every feed of
deliveries with distinct delivery tags, in the trace of `RabbitWorker.Run` every handler call
made for a delivery has the acknowledgment of that delivery before it, and no acknowledgment of
that delivery comes after the call. -/
theorem C5_ack_before_handle (w : RabbitWorker) (unmarshal : String → Option Job)
    (feed : List Delivery) (hwf : w.WellFormed)
    (htags : (feed.map Delivery.DeliveryTag).Nodup)
    (pre post : List Event) (tag : Nat) (h : JobHandler) (job : Job)
    (hsplit : w.trace unmarshal feed = pre ++ Event.invoke tag h job :: post) :
    Event.ack tag ∈ pre ∧ Event.ack tag ∉ post :=
  receiveLoop_ack_first unmarshal w.entries hwf feed htags pre post tag h job hsplit

/-- C5 witness: the scenario of the specification; the call is preceded by the
acknowledgment. -/
theorem C5_ack_before_handle_witness :
    sampleWorker.trace sampleUnmarshal [⟨1, "test", sampleBody⟩] =
        [Event.ack 1] ++ Event.invoke 1 handlers.Handle sampleJob :: [] ∧
      Event.ack 1 ∈ [Event.ack 1] ∧ Event.ack 1 ∉ ([] : List Event) :=
  ⟨rfl,
    C5_ack_before_handle sampleWorker sampleUnmarshal [⟨1, "test", sampleBody⟩]
      (by simp [RabbitWorker.WellFormed, RabbitWorker.entries, sampleWorker])
      (by simp) [Event.ack 1] [] 1 handlers.Handle sampleJob rfl⟩

/-! ## Properties of the supervisor -/

/-- Go `errors.Is(err, err)` holds. -/
theorem errorsIs_refl (e : Error) : errorsIs e e = true := by
  cases e <;> simp [errorsIs]

/-- The error built by `Errorf` wraps its argument. -/
theorem errorsIs_Errorf_self (pre : String) (e : Error) : errorsIs (Errorf pre e) e = true := by
  simp [Errorf, errorsIs, errorsIs_refl]

/-- Wrapping an error that is not of cancellation kind gives one that is not either. -/
theorem errorsIs_Errorf_canceled (pre : String) (e : Error)
    (h : errorsIs e .canceled = false) : errorsIs (Errorf pre e) .canceled = false := by
  simp [Errorf, errorsIs, h]

/-- The method `Init` reports no error. -/
theorem Init_snd (s : Server) : s.Init.2 = none := by
  unfold Server.Init
  split <;> rfl

/-- The method `Run` returns the group's error once every task has returned, and blocks before. -/
theorem Run_eq (s : Server) (sched : List Step) :
    s.Run sched =
      if (s.during sched).allDone then
        ({ s.during sched with groupDone := true, shutdownFinished := true },
          some (s.during sched).groupErr)
      else (s.during sched, none) := by
  have h := Init_snd s
  unfold Server.Run Server.during
  rcases hi : s.Init with ⟨s1, e⟩
  rw [hi] at h
  simp only at h
  subst h
  rfl

/-- The fields a returning task leaves alone. -/
theorem taskReturns_fields (s : Server) (i : Nat) (err : Option Error) :
    (s.taskReturns i err).backgroundServices = s.backgroundServices ∧
      (s.taskReturns i err).rootDone = s.rootDone ∧
      (s.taskReturns i err).task = Function.update s.task i .done := by
  unfold Server.taskReturns
  cases err with
  | none => exact ⟨rfl, rfl, rfl⟩
  | some e => cases hg : s.groupErr <;> simp [hg]

/-- A task returning nil changes the task state only. -/
theorem taskReturns_none (s : Server) (i : Nat) :
    s.taskReturns i none = { s with task := Function.update s.task i .done } := rfl

/-- The first error of the group is kept when a task returns. -/
theorem taskReturns_keeps (s : Server) (i : Nat) (err : Option Error) (e : Error)
    (h : s.groupErr = some e) :
    (s.taskReturns i err).groupErr = some e ∧ (s.taskReturns i err).groupDone = s.groupDone := by
  unfold Server.taskReturns
  cases err with
  | none => exact ⟨h, rfl⟩
  | some e1 => simp [h]

/-- A task returning an error to a group without error records it and cancels the context. -/
theorem taskReturns_records (s : Server) (i : Nat) (e : Error) (h : s.groupErr = none) :
    (s.taskReturns i (some e)).groupErr = some e ∧
      (s.taskReturns i (some e)).groupDone = true := by
  unfold Server.taskReturns
  simp [h]

/-- The step `start i`, spelled out. -/
theorem step_start (s : Server) (i : Nat) :
    s.step (.start i) =
      if i < s.backgroundServices.length ∧ s.task i = .pending then
        if s.contextDone then s.taskReturns i s.contextErr
        else { s with task := Function.update s.task i .running }
      else s := rfl

/-- The step `ret i err`, spelled out. -/
theorem step_ret (s : Server) (i : Nat) (err : Option Error) :
    s.step (.ret i err) =
      if s.task i = .running then s.taskReturns i (serviceResult (s.serviceName i) err)
      else s := rfl

/-- A step keeps the list of services. -/
theorem step_names (s : Server) (st : Step) :
    (s.step st).backgroundServices = s.backgroundServices := by
  cases st with
  | cancel => rfl
  | start i =>
    rw [step_start]
    split
    · split
      · exact (taskReturns_fields s i _).1
      · rfl
    · rfl
  | ret i err =>
    rw [step_ret]
    split
    · exact (taskReturns_fields s i _).1
    · rfl

/-- A schedule keeps the list of services. -/
theorem exec_names (sched : List Step) :
    ∀ s : Server, (s.exec sched).backgroundServices = s.backgroundServices := by
  induction sched with
  | nil => intro s; rfl
  | cons st rest ih =>
    intro s
    show ((s.step st).exec rest).backgroundServices = _
    rw [ih, step_names]

/-- The first error of the group is kept by every step. -/
theorem step_keeps (s : Server) (st : Step) (e : Error) (h : s.groupErr = some e) :
    (s.step st).groupErr = some e := by
  cases st with
  | cancel => exact h
  | start i =>
    rw [step_start]
    split
    · split
      · exact (taskReturns_keeps s i _ e h).1
      · exact h
    · exact h
  | ret i err =>
    rw [step_ret]
    split
    · exact (taskReturns_keeps s i _ e h).1
    · exact h

/-- The first error of the group is kept by every schedule. -/
theorem exec_keeps (sched : List Step) :
    ∀ (s : Server) (e : Error), s.groupErr = some e → (s.exec sched).groupErr = some e := by
  induction sched with
  | nil => intro s e h; exact h
  | cons st rest ih =>
    intro s e h
    exact ih (s.step st) e (step_keeps s st e h)

/-- The schedule of two parts is run part after part. -/
theorem exec_append (s : Server) (a b : List Step) : s.exec (a ++ b) = (s.exec a).exec b := by
  simp [Server.exec, List.foldl_append]

/-- A non-nil task result is the wrapped non-cancellation error of the service. -/
theorem serviceResult_some (name : String) (err : Option Error) (e : Error)
    (h : serviceResult name err = some e) :
    ∃ r, err = some r ∧ errorsIs r .canceled = false ∧ e = Errorf (name ++ " run error: ") r := by
  cases err with
  | none => simp [serviceResult] at h
  | some r =>
    by_cases hc : errorsIs r .canceled = true
    · simp [serviceResult, hc] at h
    · have hc2 : errorsIs r .canceled = false := by simpa using hc
      simp only [serviceResult, hc2] at h
      exact ⟨r, rfl, hc2, (Option.some.inj h).symm⟩

/-- An error that is the wrapped error of a service is not of cancellation kind. -/
theorem Wrapped.not_canceled {names : List String} {sched : List Step} {e : Error}
    (h : Wrapped names sched e) : errorsIs e .canceled = false := by
  obtain ⟨i, r, _, hr, he⟩ := h
  rw [he]
  exact errorsIs_Errorf_canceled _ r hr

/-- The return of a service keeps the group sound. -/
theorem step_ret_sound (names : List String) (full : List Step) (s : Server) (i : Nat)
    (err : Option Error) (hst : Step.ret i err ∈ full) (hs : s.Sound names full) :
    (s.step (.ret i err)).Sound names full := by
  refine ⟨by rw [step_names]; exact hs.1, ?_⟩
  intro e he
  rw [step_ret] at he
  split at he
  · cases hg : s.groupErr with
    | some e0 =>
      rw [(taskReturns_keeps s i _ e0 hg).1] at he
      exact hs.2 e (hg.trans he)
    | none =>
      cases hres : serviceResult (s.serviceName i) err with
      | none =>
        rw [hres, taskReturns_none] at he
        simp only [hg] at he
        cases he
      | some e1 =>
        rw [hres, (taskReturns_records s i e1 hg).1] at he
        obtain ⟨r, herr, hr, he1⟩ := serviceResult_some _ _ _ hres
        have hee : e1 = e := Option.some.inj he
        subst hee
        subst herr
        refine ⟨i, r, hst, hr, ?_⟩
        rw [he1, Server.serviceName, hs.1]
  · exact hs.2 e he

/-- Steps other than starts keep the group sound. -/
theorem exec_sound_no_start (names : List String) (full : List Step) :
    ∀ (rest : List Step) (s : Server), (∀ st ∈ rest, st ∈ full) →
      (rest.all fun st => !st.isStart) = true → s.Sound names full →
        (s.exec rest).Sound names full := by
  intro rest
  induction rest with
  | nil => intro s _ _ hs; exact hs
  | cons st rest ih =>
    intro s hmem hall hs
    rw [List.all_cons, Bool.and_eq_true] at hall
    have hstep : (s.step st).Sound names full := by
      cases st with
      | cancel => exact hs
      | start i => simp [Step.isStart] at hall
      | ret i err => exact step_ret_sound names full s i err (hmem _ (List.mem_cons_self _ _)) hs
    exact ih (s.step st) (fun x hx => hmem x (List.mem_cons_of_mem _ hx)) hall.2 hstep

/-- As long as the context is only cancelled by the group itself, every step but `cancel`
keeps the group sound and keeps that property. -/
theorem step_sound_uncancelled (names : List String) (full : List Step) (s : Server)
    (st : Step) (hst : st ∈ full) (hnc : st ≠ .cancel) (hs : s.Sound names full)
    (hctx : s.contextDone = true → s.groupErr ≠ none) :
    (s.step st).Sound names full ∧
      ((s.step st).contextDone = true → (s.step st).groupErr ≠ none) := by
  cases st with
  | cancel => exact absurd rfl hnc
  | start i =>
    rw [step_start]
    split
    · split
      · rename_i hdone
        cases hg : s.groupErr with
        | none => exact absurd hg (hctx hdone)
        | some e0 =>
          have hk := taskReturns_keeps s i s.contextErr e0 hg
          have hf := taskReturns_fields s i s.contextErr
          refine ⟨⟨hf.1.trans hs.1, ?_⟩, ?_⟩
          · intro e he
            exact hs.2 e (hg.trans (hk.1.symm.trans he))
          · intro _
            rw [hk.1]
            simp
      · exact ⟨hs, hctx⟩
    · exact ⟨hs, hctx⟩
  | ret i err =>
    refine ⟨step_ret_sound names full s i err hst hs, ?_⟩
    rw [step_ret]
    split
    · cases hg : s.groupErr with
      | some e0 =>
        intro _
        rw [(taskReturns_keeps s i _ e0 hg).1]
        simp
      | none =>
        cases hres : serviceResult (s.serviceName i) err with
        | none =>
          rw [taskReturns_none]
          exact hctx
        | some e1 =>
          intro _
          rw [(taskReturns_records s i e1 hg).1]
          simp
    · exact hctx

/-- When no task starts after a `cancel` step, a schedule keeps the group sound. -/
theorem exec_sound (names : List String) (full : List Step) :
    ∀ (sched : List Step) (s : Server), (∀ st ∈ sched, st ∈ full) →
      startsBeforeCancel sched = true → s.Sound names full →
      (s.contextDone = true → s.groupErr ≠ none) → (s.exec sched).Sound names full := by
  intro sched
  induction sched with
  | nil => intro s _ _ hs _; exact hs
  | cons st rest ih =>
    intro s hmem hsbc hs hctx
    have hrest : ∀ x ∈ rest, x ∈ full := fun x hx => hmem x (List.mem_cons_of_mem _ hx)
    by_cases hc : st = .cancel
    · subst hc
      exact exec_sound_no_start names full rest _ hrest hsbc hs
    · have hstep := step_sound_uncancelled names full s st (hmem _ (List.mem_cons_self _ _))
        hc hs hctx
      have hsbc2 : startsBeforeCancel rest = true := by
        cases st with
        | cancel => exact absurd rfl hc
        | start i => exact hsbc
        | ret i err => exact hsbc
      exact ih (s.step st) hrest hsbc2 hstep.1 hstep.2

/-- The state in which `Run` hands out the tasks: the group and the contexts are those of the
server, and every task is pending. -/
theorem during_nil (s : Server) :
    (s.during []).backgroundServices = s.backgroundServices ∧
      (s.during []).rootDone = s.rootDone ∧ (s.during []).groupDone = s.groupDone ∧
      (s.during []).groupErr = s.groupErr ∧ ∀ i, (s.during []).task i = .pending := by
  unfold Server.during Server.Init Server.spawn Server.exec
  split <;> simp

/-- The state during `Run` after a schedule is the state after its steps from the state in
which the tasks were handed out. -/
theorem during_eq (s : Server) (sched : List Step) :
    s.during sched = (s.during []).exec sched := rfl

/-- Starting tasks while the context is not done: the context stays as it is, no error is
recorded, and every task named in the list that was pending is now running. -/
theorem exec_starts :
    ∀ (l : List Nat) (s : Server), s.contextDone = false →
      (s.exec (l.map Step.start)).contextDone = false ∧
        (s.exec (l.map Step.start)).groupErr = s.groupErr ∧
        ∀ i, i < s.backgroundServices.length →
          (i ∈ l ∧ s.task i = .pending) ∨ s.task i = .running →
            (s.exec (l.map Step.start)).task i = .running := by
  intro l
  induction l with
  | nil =>
    intro s hctx
    refine ⟨hctx, rfl, ?_⟩
    intro i _ h
    rcases h with ⟨hm, _⟩ | h
    · simp at hm
    · exact h
  | cons j l ih =>
    intro s hctx
    have hexec : s.exec ((j :: l).map Step.start) = (s.step (.start j)).exec (l.map Step.start) :=
      rfl
    rw [hexec]
    by_cases hcond : j < s.backgroundServices.length ∧ s.task j = .pending
    · have hstep : s.step (.start j) = { s with task := Function.update s.task j .running } := by
        rw [step_start, if_pos hcond]
        simp [hctx]
      rw [hstep]
      obtain ⟨h1, h2, h3⟩ := ih { s with task := Function.update s.task j .running } hctx
      refine ⟨h1, h2, ?_⟩
      intro i hi h
      apply h3 i hi
      by_cases hij : i = j
      · right
        subst hij
        simp
      · rcases h with ⟨hm, hp⟩ | h
        · left
          refine ⟨?_, ?_⟩
          · rcases List.mem_cons.mp hm with e | e
            · exact absurd e hij
            · exact e
          · simpa [Function.update_noteq hij] using hp
        · right
          simpa [Function.update_noteq hij] using h
    · have hstep : s.step (.start j) = s := by
        rw [step_start, if_neg hcond]
      rw [hstep]
      obtain ⟨h1, h2, h3⟩ := ih s hctx
      refine ⟨h1, h2, ?_⟩
      intro i hi h
      apply h3 i hi
      rcases h with ⟨hm, hp⟩ | h
      · rcases List.mem_cons.mp hm with e | e
        · subst e
          exact absurd ⟨hi, hp⟩ hcond
        · exact Or.inl ⟨e, hp⟩
      · exact Or.inr h

/-- Cancellations and services returning nil: no error is recorded, and every running task
whose service returns in the list is done afterwards. -/
theorem exec_nil_returns :
    ∀ (rest : List Step) (s : Server), (∀ st ∈ rest, st = .cancel ∨ ∃ i, st = .ret i none) →
      (s.exec rest).groupErr = s.groupErr ∧
        ∀ i, s.task i = .done ∨ (s.task i = .running ∧ Step.ret i none ∈ rest) →
          (s.exec rest).task i = .done := by
  intro rest
  induction rest with
  | nil =>
    intro s _
    refine ⟨rfl, ?_⟩
    intro i h
    rcases h with h | ⟨_, hm⟩
    · exact h
    · simp at hm
  | cons st rest ih =>
    intro s hall
    have hrest : ∀ x ∈ rest, x = .cancel ∨ ∃ i, x = .ret i none :=
      fun x hx => hall x (List.mem_cons_of_mem _ hx)
    have hexec : s.exec (st :: rest) = (s.step st).exec rest := rfl
    rw [hexec]
    rcases hall st (List.mem_cons_self _ _) with hc | ⟨j, hr⟩
    · subst hc
      obtain ⟨h1, h2⟩ := ih (s.step .cancel) hrest
      refine ⟨h1, ?_⟩
      intro i h
      apply h2 i
      rcases h with h | ⟨hrun, hm⟩
      · exact Or.inl h
      · right
        refine ⟨hrun, ?_⟩
        rcases List.mem_cons.mp hm with e | e
        · cases e
        · exact e
    · subst hr
      by_cases hcond : s.task j = .running
      · have hstep : s.step (.ret j none) = { s with task := Function.update s.task j .done } := by
          rw [step_ret, if_pos hcond]
          rfl
        rw [hstep]
        obtain ⟨h1, h2⟩ := ih { s with task := Function.update s.task j .done } hrest
        refine ⟨h1, ?_⟩
        intro i h
        apply h2 i
        by_cases hij : i = j
        · left
          subst hij
          simp
        · rcases h with h | ⟨hrun, hm⟩
          · left
            simpa [Function.update_noteq hij] using h
          · right
            refine ⟨by simpa [Function.update_noteq hij] using hrun, ?_⟩
            rcases List.mem_cons.mp hm with e | e
            · exact absurd (Step.ret.inj e).1 hij
            · exact e
      · have hstep : s.step (.ret j none) = s := by
          rw [step_ret, if_neg hcond]
        rw [hstep]
        obtain ⟨h1, h2⟩ := ih s hrest
        refine ⟨h1, ?_⟩
        intro i h
        apply h2 i
        rcases h with h | ⟨hrun, hm⟩
        · exact Or.inl h
        · right
          refine ⟨hrun, ?_⟩
          rcases List.mem_cons.mp hm with e | e
          · exact absurd ((Step.ret.inj e).1 ▸ hrun) hcond
          · exact e

/-! ### C6 -/

/-- C6 as stated fails: the task of the second service reaches its `select` after `Shutdown`
cancelled the context and returns `context.Canceled` first; the first service then returns an
error that is not `context.Canceled`, and `Run` returns `context.Canceled`, which neither wraps
that error nor names the service. When two services fail, only the first is reported. -/
theorem C6_first_result_wins :
    ((newServer sampleServices).during [.start 0, .cancel, .start 1]).task 0 = .running ∧
      errorsIs (.leaf "listen failed") .canceled = false ∧
      ((newServer sampleServices).Run
        [.start 0, .cancel, .start 1, .ret 0 (some (.leaf "listen failed"))]).2 =
        some (some .canceled) ∧
      errorsIs .canceled (.leaf "listen failed") = false ∧
      ((newServer sampleServices).Run
        [.start 0, .start 1, .ret 1 (some (.leaf "consume failed")),
          .ret 0 (some (.leaf "listen failed"))]).2 =
        some (some (Errorf "*worker.RabbitWorker run error: " (.leaf "consume failed"))) ∧
      errorsIs (Errorf "*worker.RabbitWorker run error: " (.leaf "consume failed"))
        (.leaf "listen failed") = false := by
  refine ⟨?_, ?_, ?_, ?_, ?_, ?_⟩ <;> decide

/-- C6 amended (aggregate failure). If the `Run` of service `i` returns an error `r` that is
not of cancellation kind, and every task has returned, then `Server.Run` returns a non-nil
error. If moreover no task returned a non-nil result before (no earlier failure of a service,
no task that found the context cancelled), the returned error is the one of that service: its
message is the service type name, then `" run error: "`, then the message of `r`, and
`errors.Is` finds `r` in it. -/
theorem C6_aggregate_failure (s : Server) (pre post : List Step) (i : Nat) (r : Error)
    (hrun : (s.during pre).task i = .running) (hr : errorsIs r .canceled = false)
    (hdone : (s.during (pre ++ .ret i (some r) :: post)).allDone = true) :
    (∃ e, (s.Run (pre ++ .ret i (some r) :: post)).2 = some (some e)) ∧
      ((s.during pre).groupErr = none →
        (s.Run (pre ++ .ret i (some r) :: post)).2 =
            some (some (Errorf (s.serviceName i ++ " run error: ") r)) ∧
          (Errorf (s.serviceName i ++ " run error: ") r).message =
            s.serviceName i ++ " run error: " ++ r.message ∧
          errorsIs (Errorf (s.serviceName i ++ " run error: ") r) r = true) := by
  have hname : (s.during pre).serviceName i = s.serviceName i := by
    unfold Server.serviceName
    rw [during_eq, exec_names, (during_nil s).1]
  have hsplit : s.during (pre ++ .ret i (some r) :: post) =
      ((s.during pre).step (.ret i (some r))).exec post := by
    rw [during_eq, exec_append, ← during_eq]
    rfl
  have hstep : (s.during pre).step (.ret i (some r)) =
      (s.during pre).taskReturns i (some (Errorf (s.serviceName i ++ " run error: ") r)) := by
    rw [step_ret, if_pos hrun, hname]
    simp [serviceResult, hr]
  have hres : (s.Run (pre ++ .ret i (some r) :: post)).2 =
      some (s.during (pre ++ .ret i (some r) :: post)).groupErr := by
    rw [Run_eq, if_pos hdone]
  constructor
  · cases hg : (s.during pre).groupErr with
    | some e0 =>
      refine ⟨e0, ?_⟩
      rw [hres, hsplit, hstep]
      rw [exec_keeps post _ e0 (taskReturns_keeps _ i _ e0 hg).1]
    | none =>
      refine ⟨Errorf (s.serviceName i ++ " run error: ") r, ?_⟩
      rw [hres, hsplit, hstep]
      rw [exec_keeps post _ _ (taskReturns_records _ i _ hg).1]
  · intro hg
    refine ⟨?_, rfl, errorsIs_Errorf_self _ r⟩
    rw [hres, hsplit, hstep]
    rw [exec_keeps post _ _ (taskReturns_records _ i _ hg).1]

/-- C6 witness: both services running, the HTTP service fails, the worker stops cleanly. -/
theorem C6_aggregate_failure_witness :
    ((newServer sampleServices).during [.start 0, .start 1]).task 0 = .running ∧
      errorsIs (.leaf "listen failed") .canceled = false ∧
      ((newServer sampleServices).Run
          ([.start 0, .start 1] ++ .ret 0 (some (.leaf "listen failed")) :: [.ret 1 none])).2 =
        some (some (Errorf ("*api.HTTPServer" ++ " run error: ") (.leaf "listen failed"))) :=
  ⟨by decide, by decide,
    ((C6_aggregate_failure (newServer sampleServices) [.start 0, .start 1] [.ret 1 none] 0
      (.leaf "listen failed") (by decide) (by decide) (by decide)).2 (by decide)).1⟩

/-! ### C7 -/

/-- C7 (aggregate success). For every list of owned services (any number of them), on a server
whose context is not cancelled and whose group holds no error: if every task starts, and then,
among cancellations of the shared context, the `Run` of every service returns nil, then
`Server.Run` returns, and the value it returns is nil. -/
theorem C7_aggregate_success (s : Server) (starts : List Nat) (rest : List Step)
    (hroot : s.rootDone = false) (hgd : s.groupDone = false) (hge : s.groupErr = none)
    (hstart : ∀ i, i < s.backgroundServices.length → i ∈ starts)
    (hrest : ∀ st ∈ rest, st = .cancel ∨ ∃ i, st = .ret i none)
    (hret : ∀ i, i < s.backgroundServices.length → Step.ret i none ∈ rest) :
    (s.Run (starts.map Step.start ++ rest)).2 = some none := by
  obtain ⟨hn, hr0, hg0, he0, ht0⟩ := during_nil s
  have hctx : (s.during []).contextDone = false := by
    simp [Server.contextDone, hr0, hg0, hroot, hgd]
  obtain ⟨_, h2, h3⟩ := exec_starts starts (s.during []) hctx
  obtain ⟨h4, h5⟩ := exec_nil_returns rest ((s.during []).exec (starts.map Step.start)) hrest
  have hsplit : s.during (starts.map Step.start ++ rest) =
      ((s.during []).exec (starts.map Step.start)).exec rest := by
    rw [during_eq, exec_append]
  have herr : (s.during (starts.map Step.start ++ rest)).groupErr = none := by
    rw [hsplit, h4, h2, he0, hge]
  have hdone : (s.during (starts.map Step.start ++ rest)).allDone = true := by
    unfold Server.allDone
    rw [List.all_eq_true]
    intro i hi
    have hlt : i < s.backgroundServices.length := by
      rw [hsplit, exec_names, exec_names, hn] at hi
      exact List.mem_range.mp hi
    have hrunning := h3 i (hn ▸ hlt) (Or.inl ⟨hstart i hlt, ht0 i⟩)
    rw [hsplit]
    exact decide_eq_true (h5 i (Or.inr ⟨hrunning, hret i hlt⟩))
  rw [Run_eq, if_pos hdone, herr]

/-- C7 witness: the two services of `newServer` start, `Shutdown` cancels the context, and both
return nil. -/
theorem C7_aggregate_success_witness :
    (∀ i, i < (newServer sampleServices).backgroundServices.length → i ∈ [0, 1]) ∧
      ((newServer sampleServices).Run
        ([0, 1].map Step.start ++ [.cancel, .ret 1 none, .ret 0 none])).2 = some none :=
  ⟨by decide,
    C7_aggregate_success (newServer sampleServices) [0, 1] [.cancel, .ret 1 none, .ret 0 none]
      rfl rfl rfl (by decide) (by simp) (by decide)⟩

/-! ### C8 -/

/-- C8 as stated fails: after a `Shutdown` that came before `Run` (it timed out waiting), the
context is already cancelled when the tasks start, each task returns `s.context.Err()`, and
`Run` returns `context.Canceled`, an error of cancellation kind. -/
theorem C8_run_returns_canceled :
    ((newServer sampleServices).Shutdown ⟨false, true, false⟩).1.contextDone = true ∧
      (((newServer sampleServices).Shutdown ⟨false, true, false⟩).1.Run
        [.start 0, .start 1]).2 = some (some .canceled) ∧
      errorsIs .canceled .canceled = true := by
  refine ⟨?_, ?_, ?_⟩ <;> decide

/-- C8 amended (the result of `Run`). On a server whose context is not cancelled and whose
group holds no error when `Run` hands out the tasks, and under every schedule in which no task
starts after `Shutdown` cancelled the root context, the value `Server.Run` returns is nil or the
wrapped error of a service whose `Run` returned an error not of cancellation kind; it is never
an error of cancellation kind, and it is nil when no service returned such an error. (A task
that starts after the cancellation returns the context's error instead, which `Run` then
returns when it is the first non-nil result.) -/
theorem C8_run_result (s : Server) (sched : List Step) (res : Option Error)
    (hroot : s.rootDone = false) (hgd : s.groupDone = false) (hge : s.groupErr = none)
    (hsched : startsBeforeCancel sched = true) (hret : (s.Run sched).2 = some res) :
    (res = none ∨
        ∃ i r, Step.ret i (some r) ∈ sched ∧ errorsIs r .canceled = false ∧
          res = some (Errorf (s.serviceName i ++ " run error: ") r)) ∧
      (∀ e, res = some e → errorsIs e .canceled = false) ∧
      ((∀ i r, Step.ret i (some r) ∈ sched → errorsIs r .canceled = true) → res = none) := by
  obtain ⟨hn, hr0, hg0, he0, _⟩ := during_nil s
  have hctx : (s.during []).contextDone = true → (s.during []).groupErr ≠ none := by
    intro h
    simp [Server.contextDone, hr0, hg0, hroot, hgd] at h
  have hs0 : (s.during []).Sound s.backgroundServices sched :=
    ⟨hn, fun e he => by rw [he0, hge] at he; cases he⟩
  have hsound := exec_sound s.backgroundServices sched sched (s.during [])
    (fun _ h => h) hsched hs0 hctx
  have hres : res = (s.during sched).groupErr := by
    rw [Run_eq] at hret
    split at hret
    · exact (Option.some.inj hret).symm
    · cases hret
  have hw : ∀ e, res = some e → Wrapped s.backgroundServices sched e := by
    intro e he
    exact hsound.2 e (hres ▸ he)
  refine ⟨?_, ?_, ?_⟩
  · cases hr : res with
    | none => exact Or.inl rfl
    | some e =>
      obtain ⟨i, r, hm, hrc, hee⟩ := hw e hr
      exact Or.inr ⟨i, r, hm, hrc, by rw [hee]; rfl⟩
  · intro e he
    exact (hw e he).not_canceled
  · intro hall
    cases hr : res with
    | none => rfl
    | some e =>
      obtain ⟨i, r, hm, hrc, _⟩ := hw e hr
      rw [hall i r hm] at hrc
      cases hrc

/-- C8 witness: both services start, `Shutdown` cancels the context, the HTTP service returns
`context.Canceled` and the worker an error; `Run` returns the wrapped error of the worker. -/
theorem C8_run_result_witness :
    startsBeforeCancel
        [.start 0, .start 1, .cancel, .ret 0 (some .canceled), .ret 1 (some (.leaf "closed"))] =
        true ∧
      ((newServer sampleServices).Run
        [.start 0, .start 1, .cancel, .ret 0 (some .canceled), .ret 1 (some (.leaf "closed"))]).2 =
        some (some (Errorf "*worker.RabbitWorker run error: " (.leaf "closed"))) ∧
      errorsIs (Errorf "*worker.RabbitWorker run error: " (.leaf "closed")) .canceled = false :=
  ⟨by decide, by decide,
    (C8_run_result (newServer sampleServices)
      [.start 0, .start 1, .cancel, .ret 0 (some .canceled), .ret 1 (some (.leaf "closed"))]
      (some (Errorf "*worker.RabbitWorker run error: " (.leaf "closed")))
      rfl rfl rfl (by decide) (by decide)).2.1 _ rfl⟩

/-! ### C9 and C10 -/

/-- A call of `Shutdown` that returns leaves the once finished. -/
theorem Shutdown_returns_done (s : Server) (v : SelectView) (r : Option Error)
    (h : (s.Shutdown v).2 = some r) : (s.Shutdown v).1.shutdownOnce = .done := by
  unfold Server.Shutdown at h ⊢
  cases ho : s.shutdownOnce with
  | done => simp [ho]
  | running => simp [ho] at h
  | fresh =>
    simp only [ho] at h ⊢
    split
    · rfl
    · split
      · rfl
      · rename_i h1 h2
        rw [if_neg h1, if_neg h2] at h
        cases h

/-- A call of `Shutdown` on a server whose once is finished returns nil and changes nothing. -/
theorem Shutdown_of_done (s : Server) (v : SelectView) (h : s.shutdownOnce = .done) :
    s.Shutdown v = (s, some none) := by
  unfold Server.Shutdown
  simp [h]

/-- Calls of `Shutdown` on a server whose once is finished all return nil and change nothing. -/
theorem shutdownCalls_of_done (vs : List SelectView) :
    ∀ s : Server, s.shutdownOnce = .done →
      s.shutdownCalls vs = (s, vs.map fun _ => some none) := by
  induction vs with
  | nil => intro s _; rfl
  | cons v vs ih =>
    intro s h
    simp [Server.shutdownCalls, Shutdown_of_done s v h, ih s h]

/-- C9 as stated fails: on the server of `newServer`, a first `Shutdown` whose deadline elapses
before `Run` has returned gives the timeout error, and a second call gives nil: the error lives
in a local variable of the call that ran the once. -/
theorem C9_second_call_returns_nil :
    ((newServer sampleServices).Shutdown ⟨false, true, false⟩).2 = some (some shutdownTimeout) ∧
      (((newServer sampleServices).Shutdown ⟨false, true, false⟩).1.Shutdown
        ⟨false, true, false⟩).2 = some none := by
  constructor <;> decide

/-- C9 amended (repeated shutdown). For every server state and every call of `Shutdown` that
returns, whatever it returned, every later call returns nil and changes nothing: the root
context is not cancelled again and nothing is waited for. Later calls thus return the outcome
of the first call only when that outcome was nil. -/
theorem C9_later_calls_return_nil (s : Server) (v : SelectView) (r : Option Error)
    (vs : List SelectView) (h : (s.Shutdown v).2 = some r) :
    (s.Shutdown v).1.shutdownCalls vs = ((s.Shutdown v).1, vs.map fun _ => some none) :=
  shutdownCalls_of_done vs _ (Shutdown_returns_done s v r h)

/-- C9 witness: a first call that times out, then two more calls. -/
theorem C9_later_calls_return_nil_witness :
    ((newServer sampleServices).Shutdown ⟨false, true, false⟩).2 = some (some shutdownTimeout) ∧
      (((newServer sampleServices).Shutdown ⟨false, true, false⟩).1.shutdownCalls
        [⟨false, true, false⟩, ⟨true, false, true⟩]).2 = [some none, some none] :=
  ⟨by decide,
    congrArg Prod.snd (C9_later_calls_return_nil (newServer sampleServices) ⟨false, true, false⟩
      (some shutdownTimeout) [⟨false, true, false⟩, ⟨true, false, true⟩] (by decide))⟩

/-- C10 (shutdown timeout). On the first call of `Shutdown` (the once is unused) the root cancel
function is invoked, so the shared context is done afterwards; if the deadline of `ctx` elapses
while `shutdownFinished` is still open, the call returns the timeout error, which is not nil;
if `shutdownFinished` is closed while `ctx` is not done, the call returns nil. -/
theorem C10_shutdown_timeout (s : Server) (v : SelectView) (hfresh : s.shutdownOnce = .fresh) :
    (s.Shutdown v).1.rootDone = true ∧ (s.Shutdown v).1.contextDone = true ∧
      (v.ctxDone = true → s.shutdownFinished = false → v.finished = false →
        (s.Shutdown v).2 = some (some shutdownTimeout)) ∧
      ((s.shutdownFinished = true ∨ v.finished = true) → v.ctxDone = false →
        (s.Shutdown v).2 = some none) := by
  unfold Server.Shutdown
  simp only [hfresh]
  refine ⟨?_, ?_, ?_, ?_⟩
  · split
    · rfl
    · split <;> rfl
  · split
    · rfl
    · split <;> rfl
  · intro h1 h2 h3
    simp [h1, h2, h3]
  · intro h1 h2
    rcases h1 with h1 | h1 <;> simp [h1, h2]

/-- C10 witness: on the server of `newServer` the deadline elapses while `Run` has not
returned. -/
theorem C10_shutdown_timeout_witness :
    (newServer sampleServices).shutdownOnce = .fresh ∧
      ((newServer sampleServices).Shutdown ⟨false, true, false⟩).1.rootDone = true ∧
      ((newServer sampleServices).Shutdown ⟨false, true, false⟩).2 =
        some (some shutdownTimeout) :=
  ⟨rfl,
    (C10_shutdown_timeout (newServer sampleServices) ⟨false, true, false⟩ rfl).1,
    (C10_shutdown_timeout (newServer sampleServices) ⟨false, true, false⟩ rfl).2.2.1 rfl rfl rfl⟩

/-! ## Properties of construction, registration and the return of `Run` -/

/-! ### C11 -/

/-- C11 fails on the code: whatever the worker, the feed and the state of the context, also
with the feed ended and the context cancelled, `RabbitWorker.Run` does not return: it stays in
the receive from `forever`, a nil channel. The claim asks for a return with nil. -/
theorem C11_run_never_returns (w : RabbitWorker) (unmarshal : String → Option Job)
    (feed : List Delivery) (ctxDone : Bool) :
    w.RunReturn unmarshal feed ctxDone = none ∧
      sampleWorker.RunReturn sampleUnmarshal [] true = none ∧
      consumerEnds (sampleWorker.flow sampleUnmarshal []) true = true := by
  refine ⟨?_, rfl, rfl⟩
  unfold RabbitWorker.RunReturn
  split <;> rfl

/-! ### C12 -/

/-- C12 fails on the code: on a broker where dialing, opening the channel and declaring the
queue and the exchange succeed and binding the queue fails, `NewRabbitWorker` returns a worker
and a nil error: the result of `ch.QueueBind` is dropped. The four checked steps do fail fast. -/
theorem C12_bind_failure_ignored :
    bindFailingBroker.queueBind = some (.leaf "ACCESS_REFUSED") ∧
      (NewRabbitWorker bindFailingBroker "localhost" "guest" "guest" "/" 5672 "jobs" "oncall"
        5).2 = none ∧
      (NewRabbitWorker bindFailingBroker "localhost" "guest" "guest" "/" 5672 "jobs" "oncall"
        5).1.isSome = true ∧
      (NewRabbitWorker { bindFailingBroker with exchangeDeclare := some (.leaf "NOT_ALLOWED") }
        "localhost" "guest" "guest" "/" 5672 "jobs" "oncall" 5).1.isSome = false := by
  refine ⟨rfl, rfl, rfl, rfl⟩

/-! ### C13 -/

/-- After `m[t] = h` the map gives `h` for `t`. -/
theorem entriesGet_set_self (t : JobType) (h : JobHandler) :
    ∀ es : List (JobType × JobHandler), entriesGet t (entriesSet t h es) = some h
  | [] => by simp [entriesSet, entriesGet]
  | (t1, h1) :: rest => by
    by_cases e : t1 = t
    · simp [entriesSet, entriesGet, e]
    · simp [entriesSet, entriesGet, e, entriesGet_set_self t h rest]

/-- After `m[t] = h` the map gives for every other key what it gave before. -/
theorem entriesGet_set_of_ne (t : JobType) (h : JobHandler) (k : JobType) (hk : k ≠ t) :
    ∀ es : List (JobType × JobHandler), entriesGet k (entriesSet t h es) = entriesGet k es
  | [] => by simp [entriesSet, entriesGet, Ne.symm hk]
  | (t1, h1) :: rest => by
    by_cases e : t1 = t
    · have e2 : ¬ t1 = k := fun c => hk (c.symm.trans e)
      simp [entriesSet, entriesGet, e, e2, Ne.symm hk]
    · by_cases e3 : t1 = k
      · subst e3
        simp [entriesSet, entriesGet, e]
      · simp [entriesSet, entriesGet, e, e3, entriesGet_set_of_ne t h k hk rest]

/-- The keys after `m[t] = h` are `t` and the keys before. -/
theorem mem_keys_entriesSet (t : JobType) (h : JobHandler) (k : JobType) :
    ∀ es : List (JobType × JobHandler),
      k ∈ (entriesSet t h es).map Prod.fst ↔ k = t ∨ k ∈ es.map Prod.fst
  | [] => by simp [entriesSet]
  | (t1, h1) :: rest => by
    by_cases e : t1 = t
    · subst e
      simp [entriesSet]
    · have ih := mem_keys_entriesSet t h k rest
      simp only [entriesSet, e, if_false, List.map_cons, List.mem_cons, ih]
      constructor
      · rintro (a | a | a)
        · exact Or.inr (Or.inl a)
        · exact Or.inl a
        · exact Or.inr (Or.inr a)
      · rintro (a | a | a)
        · exact Or.inr (Or.inl a)
        · exact Or.inl a
        · exact Or.inr (Or.inr a)

/-- The statement `m[t] = h` keeps the keys of the map distinct. -/
theorem nodup_keys_entriesSet (t : JobType) (h : JobHandler) :
    ∀ es : List (JobType × JobHandler), (es.map Prod.fst).Nodup →
      ((entriesSet t h es).map Prod.fst).Nodup
  | [], _ => by simp [entriesSet]
  | (t1, h1) :: rest, hnd => by
    rw [List.map_cons, List.nodup_cons] at hnd
    by_cases e : t1 = t
    · subst e
      simpa [entriesSet] using hnd
    · have ih := nodup_keys_entriesSet t h rest hnd.2
      simp only [entriesSet, e, if_false, List.map_cons, List.nodup_cons]
      refine ⟨?_, ih⟩
      intro hm
      rcases (mem_keys_entriesSet t h t1 rest).mp hm with a | a
      · exact e a
      · exact hnd.1 a

/-- With distinct keys, the map gives for a key the handler of its entry. -/
theorem entriesGet_of_mem (t : JobType) (h : JobHandler) :
    ∀ es : List (JobType × JobHandler), (es.map Prod.fst).Nodup → (t, h) ∈ es →
      entriesGet t es = some h
  | [], _, hm => by simp at hm
  | (t1, h1) :: rest, hnd, hm => by
    rw [List.map_cons, List.nodup_cons] at hnd
    rcases List.mem_cons.mp hm with a | a
    · cases a
      simp [entriesGet]
    · have hne : ¬ t1 = t := by
        intro c
        have hmem : t ∈ rest.map Prod.fst := List.mem_map_of_mem Prod.fst a
        rw [← c] at hmem
        exact hnd.1 hmem
      simp [entriesGet, hne, entriesGet_of_mem t h rest hnd.2 a]

/-- The method `RegisterHandler` never panics: it yields the worker with the entry set, on the
map made first when it was nil. -/
theorem RegisterHandler_eq {α : Type} (w : RabbitWorker) (t : JobType) (h : JobHandler)
    (a : α) :
    w.RegisterHandler t h a = .ok { w with handlers := some (entriesSet t h w.entries) } := by
  rcases w with ⟨hs, q⟩
  cases hs <;> rfl

/-- C13 (register handler). For every worker, also one whose handler map is still nil, every
type `t` and handlers `h1`, `h2`: `RegisterHandler(t, h1, _)` raises no error and leaves a
registry that maps `t` to `h1` and every other type to what it was mapped to before; a second
`RegisterHandler(t, h2, _)` raises no error and leaves a registry that maps `t` to `h2`, every
other type as before; the keys stay unique, so the entry of `t` is then the one of `h2` only. -/
theorem C13_register_handler {α : Type} (w : RabbitWorker) (t : JobType) (h1 h2 : JobHandler)
    (a1 a2 : α) :
    ∃ w1 w2, w.RegisterHandler t h1 a1 = .ok w1 ∧ w1.RegisterHandler t h2 a2 = .ok w2 ∧
      w1.handlerFor t = some h1 ∧ (∀ k, k ≠ t → w1.handlerFor k = w.handlerFor k) ∧
      w2.handlerFor t = some h2 ∧ (∀ k, k ≠ t → w2.handlerFor k = w.handlerFor k) ∧
      (w.WellFormed → w1.WellFormed ∧ w2.WellFormed ∧ ∀ h, (t, h) ∈ w2.entries → h = h2) := by
  refine ⟨_, _, RegisterHandler_eq w t h1 a1, RegisterHandler_eq _ t h2 a2, ?_, ?_, ?_, ?_, ?_⟩
  · exact entriesGet_set_self t h1 w.entries
  · intro k hk
    exact entriesGet_set_of_ne t h1 k hk w.entries
  · exact entriesGet_set_self t h2 _
  · intro k hk
    exact (entriesGet_set_of_ne t h2 k hk _).trans (entriesGet_set_of_ne t h1 k hk w.entries)
  · intro hwf
    have hw1 : ((entriesSet t h1 w.entries).map Prod.fst).Nodup :=
      nodup_keys_entriesSet t h1 w.entries hwf
    have hw2 : ((entriesSet t h2 (entriesSet t h1 w.entries)).map Prod.fst).Nodup :=
      nodup_keys_entriesSet t h2 _ hw1
    refine ⟨hw1, hw2, ?_⟩
    intro h hm
    have hget := entriesGet_of_mem t h _ hw2 hm
    have hself := entriesGet_set_self t h2 (entriesSet t h1 w.entries)
    exact Option.some.inj (hget.symm.trans hself)

/-- C13 witness: on the worker as constructed (nil handler map), `handlers.Handle` is
registered for `"test"` and then replaced. -/
theorem C13_register_handler_witness :
    freshWorker.handlers.isNone = true ∧
      ∃ w1 w2, freshWorker.RegisterHandler "test" handlers.Handle () = .ok w1 ∧
        w1.RegisterHandler "test" ⟨fun _ => .returned⟩ () = .ok w2 ∧
        w1.handlerFor "test" = some handlers.Handle ∧
        (∀ k, k ≠ "test" → w1.handlerFor k = freshWorker.handlerFor k) ∧
        w2.handlerFor "test" = some ⟨fun _ => .returned⟩ ∧
        (∀ k, k ≠ "test" → w2.handlerFor k = freshWorker.handlerFor k) ∧
        (freshWorker.WellFormed → w1.WellFormed ∧ w2.WellFormed ∧
          ∀ h, ("test", h) ∈ w2.entries → h = ⟨fun _ => .returned⟩) :=
  ⟨rfl, C13_register_handler freshWorker "test" handlers.Handle ⟨fun _ => .returned⟩ () ()⟩

/-! ### C14 -/

/-- A returning task leaves a cancelled group context cancelled. -/
theorem taskReturns_groupDone (s : Server) (i : Nat) (err : Option Error)
    (h : s.groupDone = true) : (s.taskReturns i err).groupDone = true := by
  unfold Server.taskReturns
  cases err with
  | none => exact h
  | some e => cases hg : s.groupErr <;> simp [hg, h]

/-- After a task returned, a recorded error comes with a cancelled group context, when that
was so before. -/
theorem taskReturns_err_done (s : Server) (i : Nat) (err : Option Error)
    (hinv : s.groupErr ≠ none → s.groupDone = true) :
    (s.taskReturns i err).groupErr ≠ none → (s.taskReturns i err).groupDone = true := by
  cases hg : s.groupErr with
  | some e0 =>
    intro _
    exact taskReturns_groupDone s i err (hinv (by rw [hg]; simp))
  | none =>
    cases err with
    | none =>
      intro hne
      rw [taskReturns_none] at hne
      exact absurd hg hne
    | some e =>
      intro _
      exact (taskReturns_records s i e hg).2

/-- A step leaves a done context done, and keeps a recorded error together with a cancelled
group context. -/
theorem step_contextDone (s : Server) (st : Step) :
    (s.contextDone = true → (s.step st).contextDone = true) ∧
      ((s.groupErr ≠ none → s.groupDone = true) →
        (s.step st).groupErr ≠ none → (s.step st).groupDone = true) := by
  have hctx : ∀ (i : Nat) (err : Option Error), s.contextDone = true →
      (s.taskReturns i err).contextDone = true := by
    intro i err h
    unfold Server.contextDone at h ⊢
    rw [(taskReturns_fields s i err).2.1]
    rcases Bool.or_eq_true_iff.mp h with a | a
    · simp [a]
    · simp [taskReturns_groupDone s i err a]
  cases st with
  | cancel =>
    refine ⟨?_, fun hinv => hinv⟩
    intro _
    simp [Server.step, Server.contextDone]
  | start i =>
    rw [step_start]
    split
    · split
      · exact ⟨hctx i _, taskReturns_err_done s i _⟩
      · exact ⟨fun h => h, fun hinv => hinv⟩
    · exact ⟨fun h => h, fun hinv => hinv⟩
  | ret i err =>
    rw [step_ret]
    split
    · exact ⟨hctx i _, taskReturns_err_done s i _⟩
    · exact ⟨fun h => h, fun hinv => hinv⟩

/-- A schedule leaves a done context done. -/
theorem exec_contextDone (sched : List Step) :
    ∀ s : Server, s.contextDone = true → (s.exec sched).contextDone = true := by
  induction sched with
  | nil => intro s h; exact h
  | cons st rest ih => intro s h; exact ih (s.step st) ((step_contextDone s st).1 h)

/-- A schedule keeps a recorded error together with a cancelled group context. -/
theorem exec_err_done (sched : List Step) :
    ∀ s : Server, (s.groupErr ≠ none → s.groupDone = true) →
      (s.exec sched).groupErr ≠ none → (s.exec sched).groupDone = true := by
  induction sched with
  | nil => intro s h; exact h
  | cons st rest ih => intro s h; exact ih (s.step st) ((step_contextDone s st).2 h)

/-- C14 (first error cancels all). On a server whose group has its context cancelled whenever it
holds an error (as the run group guarantees, and as `newServer` builds it), whenever the `Run`
of a running service returns an error not of cancellation kind, so that its task returns a
non-nil error, the shared context `Server.context` is done right after that return and stays
done under every later step, with `context.Canceled` as its error: every sibling still inside
its `Run` holds a cancelled context, and every sibling task that starts afterwards finds the
context done and returns without calling its service. -/
theorem C14_first_error_cancels_all (s : Server) (pre post : List Step) (i : Nat) (r : Error)
    (hinv : s.groupErr ≠ none → s.groupDone = true)
    (hrun : (s.during pre).task i = .running) (hr : errorsIs r .canceled = false) :
    (s.during (pre ++ [.ret i (some r)])).contextDone = true ∧
      (s.during (pre ++ .ret i (some r) :: post)).contextDone = true ∧
      (s.during (pre ++ .ret i (some r) :: post)).contextErr = some .canceled ∧
      ∀ j, j < s.backgroundServices.length →
        (s.during (pre ++ .ret i (some r) :: post)).task j = .pending →
          (s.during (pre ++ .ret i (some r) :: post)).step (.start j) =
              (s.during (pre ++ .ret i (some r) :: post)).taskReturns j (some .canceled) ∧
            ((s.during (pre ++ .ret i (some r) :: post)).step (.start j)).task j = .done := by
  have hinv0 : (s.during []).groupErr ≠ none → (s.during []).groupDone = true := by
    obtain ⟨_, _, hg0, he0, _⟩ := during_nil s
    rw [he0, hg0]
    exact hinv
  have hinvpre : (s.during pre).groupErr ≠ none → (s.during pre).groupDone = true := by
    rw [during_eq]
    exact exec_err_done pre _ hinv0
  have hstep : (s.during pre).step (.ret i (some r)) =
      (s.during pre).taskReturns i
        (some (Errorf ((s.during pre).serviceName i ++ " run error: ") r)) := by
    rw [step_ret, if_pos hrun]
    simp [serviceResult, hr]
  have hdone1 : ((s.during pre).step (.ret i (some r))).contextDone = true := by
    rw [hstep]
    unfold Server.contextDone
    cases hg : (s.during pre).groupErr with
    | some e0 =>
      have := taskReturns_groupDone (s.during pre) i
        (some (Errorf ((s.during pre).serviceName i ++ " run error: ") r))
        (hinvpre (by rw [hg]; simp))
      simp [this]
    | none =>
      simp [(taskReturns_records (s.during pre) i _ hg).2]
  have hsplit : ∀ post2, s.during (pre ++ .ret i (some r) :: post2) =
      ((s.during pre).step (.ret i (some r))).exec post2 := by
    intro post2
    rw [during_eq, exec_append, ← during_eq]
    rfl
  have hdone2 : (s.during (pre ++ .ret i (some r) :: post)).contextDone = true := by
    rw [hsplit]
    exact exec_contextDone post _ hdone1
  refine ⟨?_, hdone2, ?_, ?_⟩
  · rw [hsplit]
    exact hdone1
  · simp [Server.contextErr, hdone2]
  · intro j hj hpend
    have hlen : j < (s.during (pre ++ .ret i (some r) :: post)).backgroundServices.length := by
      rw [during_eq, exec_names, (during_nil s).1]
      exact hj
    have heq : (s.during (pre ++ .ret i (some r) :: post)).step (.start j) =
        (s.during (pre ++ .ret i (some r) :: post)).taskReturns j (some .canceled) := by
      rw [step_start, if_pos ⟨hlen, hpend⟩, if_pos hdone2]
      simp [Server.contextErr, hdone2]
    refine ⟨heq, ?_⟩
    rw [heq, (taskReturns_fields _ j _).2.2]
    simp

/-- C14 witness: the HTTP service fails while the task of the worker has not started; the
context is done and the task of the worker is skipped. -/
theorem C14_first_error_cancels_all_witness :
    ((newServer sampleServices).during [.start 0]).task 0 = .running ∧
      ((newServer sampleServices).during
        ([.start 0] ++ [.ret 0 (some (.leaf "listen failed"))])).contextDone = true ∧
      (((newServer sampleServices).during
        ([.start 0] ++ .ret 0 (some (.leaf "listen failed")) :: [])).step (.start 1)).task 1 =
        .done :=
  ⟨by decide,
    (C14_first_error_cancels_all (newServer sampleServices) [.start 0] [] 0
      (.leaf "listen failed") (by decide) (by decide) (by decide)).1,
    ((C14_first_error_cancels_all (newServer sampleServices) [.start 0] [] 0
      (.leaf "listen failed") (by decide) (by decide) (by decide)).2.2.2 1 (by decide)
      (by decide)).2⟩

/-! ### C15 -/

/-- C15 as stated fails: with `handlers.Handle` registered for `"test"`, a delivery with
routing key `"test"` whose job has no argument makes `Handle` panic on `job.Args[0]`; nothing
recovers the panic, so the well-formed delivery after it is neither acknowledged nor handled,
while the same delivery alone is. The failing delivery was acknowledged before the call. -/
theorem C15_panic_ends_consumer :
    scenarioUnmarshal emptyArgsBody = some emptyArgsJob ∧
      handlers.Handle.call emptyArgsJob = .panicked ∧
      sampleWorker.Run scenarioUnmarshal [⟨1, "test", emptyArgsBody⟩, ⟨2, "test", sampleBody⟩] =
        ([Event.ack 1, Event.invoke 1 handlers.Handle emptyArgsJob], .crash) ∧
      sampleWorker.Run scenarioUnmarshal [⟨2, "test", sampleBody⟩] =
        ([Event.ack 2, Event.invoke 2 handlers.Handle sampleJob], .next) := by
  refine ⟨by decide, rfl, ?_, ?_⟩ <;>
    simp [RabbitWorker.Run, RabbitWorker.entries, sampleWorker, receiveLoop, dispatch,
      scenarioUnmarshal, sampleBody, emptyArgsBody, handlers.Handle, emptyArgsJob, sampleJob]

/-- C15 amended (handler failure). For every registry with unique keys and every feed, if the
handler called for a delivery `d` the loop reaches panics, the failing delivery has been
acknowledged before the call and stays so, and the panic, which nothing recovers, ends the
consumer at `d`: the trace ends with the acknowledgment and the call for `d`, and no later
delivery of the feed is acknowledged or handled. -/
theorem C15_handler_panic (w : RabbitWorker) (unmarshal : String → Option Job)
    (pre post : List Delivery) (d : Delivery) (t : JobType) (h : JobHandler) (job : Job)
    (hwf : w.WellFormed) (hreg : (t, h) ∈ w.entries) (hk : d.RoutingKey = t)
    (hj : unmarshal d.Body = some job) (hp : h.call job = .panicked)
    (hpre : w.flow unmarshal pre = .next) :
    w.Run unmarshal (pre ++ d :: post) =
      (w.trace unmarshal pre ++ [Event.ack d.DeliveryTag, Event.invoke d.DeliveryTag h job],
        .crash) := by
  have hd := dispatch_matched unmarshal d t h job hk hj w.entries hwf hreg
  rw [hp] at hd
  have hrun : w.Run unmarshal (d :: post) =
      ([Event.ack d.DeliveryTag, Event.invoke d.DeliveryTag h job], .crash) := by
    rw [run_cons, hd]
    simp
  rw [run_append, if_pos hpre]
  simp [RabbitWorker.trace, RabbitWorker.flow, hrun]

/-- C15 witness: `handlers.Handle` registered for `"test"` and a delivery with routing key
`"test"` whose job has an empty argument list, followed by a well-formed delivery. -/
theorem C15_handler_panic_witness :
    handlers.Handle.call emptyArgsJob = .panicked ∧
      sampleWorker.Run scenarioUnmarshal
          ([] ++ ⟨1, "test", emptyArgsBody⟩ :: [⟨2, "test", sampleBody⟩]) =
        (sampleWorker.trace scenarioUnmarshal [] ++
          [Event.ack 1, Event.invoke 1 handlers.Handle emptyArgsJob], .crash) :=
  ⟨rfl,
    C15_handler_panic sampleWorker scenarioUnmarshal [] [⟨2, "test", sampleBody⟩]
      ⟨1, "test", emptyArgsBody⟩ "test" handlers.Handle emptyArgsJob
      (by simp [RabbitWorker.WellFormed, RabbitWorker.entries, sampleWorker])
      (by simp [RabbitWorker.entries, sampleWorker]) rfl (by decide) rfl rfl⟩

/-! ### C16 -/

/-- The trace of `RabbitWorker.Run` on a feed of one delivery is what the inner loop leaves. -/
theorem trace_singleton (w : RabbitWorker) (unmarshal : String → Option Job) (d : Delivery) :
    w.trace unmarshal [d] = (dispatch unmarshal d w.entries).1 := by
  show (w.Run unmarshal [d]).1 = _
  rw [run_cons]
  split <;> simp [RabbitWorker.trace, RabbitWorker.Run, receiveLoop]

/-- C16 (dispatch on the routing key only). For every registry with unique keys and every two
deliveries with the same routing key whose bodies deserialize, whatever the jobs hold in their
field `Type`, `RabbitWorker.Run` calls the same handlers for both; when the routing key is
registered, each delivery is acknowledged and its job passed to the handler registered for the
routing key, also when the job's `Type` differs from the routing key. -/
theorem C16_dispatch_on_routing_key (w : RabbitWorker) (unmarshal : String → Option Job)
    (d1 d2 : Delivery) (j1 j2 : Job) (hwf : w.WellFormed)
    (hkey : d1.RoutingKey = d2.RoutingKey) (h1 : unmarshal d1.Body = some j1)
    (h2 : unmarshal d2.Body = some j2) :
    calledHandlers (w.trace unmarshal [d1]) = calledHandlers (w.trace unmarshal [d2]) ∧
      ∀ h, (d1.RoutingKey, h) ∈ w.entries →
        w.trace unmarshal [d1] = [Event.ack d1.DeliveryTag, Event.invoke d1.DeliveryTag h j1] ∧
          w.trace unmarshal [d2] =
            [Event.ack d2.DeliveryTag, Event.invoke d2.DeliveryTag h j2] := by
  have hall : ∀ h, (d1.RoutingKey, h) ∈ w.entries →
      w.trace unmarshal [d1] = [Event.ack d1.DeliveryTag, Event.invoke d1.DeliveryTag h j1] ∧
        w.trace unmarshal [d2] =
          [Event.ack d2.DeliveryTag, Event.invoke d2.DeliveryTag h j2] := by
    intro h hm
    rw [trace_singleton, trace_singleton,
      dispatch_matched unmarshal d1 d1.RoutingKey h j1 rfl h1 w.entries hwf hm,
      dispatch_matched unmarshal d2 d1.RoutingKey h j2 hkey.symm h2 w.entries hwf hm]
    exact ⟨rfl, rfl⟩
  refine ⟨?_, hall⟩
  by_cases hex : ∃ p ∈ w.entries, p.1 = d1.RoutingKey
  · obtain ⟨p, hp, e⟩ := hex
    have hm : (d1.RoutingKey, p.2) ∈ w.entries := by
      rw [← e]
      exact hp
    rw [(hall p.2 hm).1, (hall p.2 hm).2]
    rfl
  · have hno1 : ∀ p ∈ w.entries, p.1 ≠ d1.RoutingKey := fun p hp e => hex ⟨p, hp, e⟩
    have hno2 : ∀ p ∈ w.entries, p.1 ≠ d2.RoutingKey := by
      rw [← hkey]
      exact hno1
    rw [trace_singleton, trace_singleton, dispatch_unmatched unmarshal d1 w.entries hno1,
      dispatch_unmatched unmarshal d2 w.entries hno2]

/-- C16 witness: two deliveries with routing key `"test"`, one whose job has the type `"test"`
and one whose job has the type `"other"`; both go to `handlers.Handle`. -/
theorem C16_dispatch_on_routing_key_witness :
    otherTypeJob.Typ ≠ "test" ∧
      calledHandlers (sampleWorker.trace scenarioUnmarshal [⟨1, "test", sampleBody⟩]) =
        calledHandlers (sampleWorker.trace scenarioUnmarshal [⟨2, "test", otherTypeBody⟩]) ∧
      sampleWorker.trace scenarioUnmarshal [⟨2, "test", otherTypeBody⟩] =
        [Event.ack 2, Event.invoke 2 handlers.Handle otherTypeJob] :=
  ⟨by decide,
    (C16_dispatch_on_routing_key sampleWorker scenarioUnmarshal ⟨1, "test", sampleBody⟩
      ⟨2, "test", otherTypeBody⟩ sampleJob otherTypeJob
      (by simp [RabbitWorker.WellFormed, RabbitWorker.entries, sampleWorker]) rfl
      (by decide) (by decide)).1,
    ((C16_dispatch_on_routing_key sampleWorker scenarioUnmarshal ⟨1, "test", sampleBody⟩
      ⟨2, "test", otherTypeBody⟩ sampleJob otherTypeJob
      (by simp [RabbitWorker.WellFormed, RabbitWorker.entries, sampleWorker]) rfl
      (by decide) (by decide)).2 handlers.Handle
      (by simp [RabbitWorker.entries, sampleWorker])).2⟩

end Oncall
